import Mathlib

/-!
Verification of the rxing barcode library core (a Rust port of ZXing),
against its natural-language specification.

The Rust sources under src/src/common are shallowly embedded below:
pure functions become Lean functions, `&mut self` methods become explicit
state passing, machine integers become `Nat` with explicit `% 2 ^ w`
truncation where the Rust types truncate, and fallible code returns
`Except`.  Rust `usize`/`u32` arithmetic is modelled with the checked
(debug-build) semantics: an arithmetic underflow, an out-of-bounds index
or a failed `assert!`/`unwrap` is a panic, modelled as `RtError.panicked`.
-/

/-- Runtime outcomes of the embedded Rust code: `panicked` models a Rust
panic (index out of bounds, usize underflow, failed assert or unwrap);
the other constructors model the two `Exceptions` variants that the
sources return as `Err` values. -/
inductive RtError where
  | panicked
  | invalidArg
  | notFound
  | outOfBounds
deriving Repr, DecidableEq

deriving instance DecidableEq for Except

/-- Checked `usize` subtraction: panics on underflow (Rust debug build). -/
def usizeSub (a b : Nat) : Except RtError Nat :=
  if a < b then .error .panicked else .ok (a - b)

/-- List indexing, panicking out of bounds like Rust slice indexing. -/
def idx {α : Type} (l : List α) (i : Nat) : Except RtError α :=
  match l.get? i with
  | some x => .ok x
  | none => .error .panicked

/-! ## BitSource (src/src/common/mod.rs lines 1500-1591)

`struct BitSource { bytes: Vec<u8>, byte_offset: usize, bit_offset: usize }`.
Bytes are `u8`, modelled as `Nat` values; well-formed states keep them
below 256 and `bit_offset` below 8. -/

structure BitSource where
  bytes : List Nat
  byteOffset : Nat
  bitOffset : Nat
deriving Repr, DecidableEq

/-- `BitSource::new(bytes)`. -/
def BitSource.mk0 (bytes : List Nat) : BitSource :=
  { bytes := bytes, byteOffset := 0, bitOffset := 0 }

/-- `BitSource::available(): 8 * (self.bytes.len() - self.byte_offset) - self.bit_offset`.
The two `usize` subtractions cannot underflow in reachable states
(`byte_offset <= len`, `bit_offset <= 8 * (len - byte_offset)`), so they
are modelled with truncated `Nat` subtraction. -/
def BitSource.available (s : BitSource) : Nat :=
  8 * (s.bytes.length - s.byteOffset) - s.bitOffset

/-- The `while num_bits >= 8` loop of `BitSource::readBits`: in the source
`result` is inferred as `u8`, so `((result as u16) << 8) as u8` truncates
the accumulated value to its low 8 bits (that is, to 0) before OR-ing in
the next byte. -/
def readBitsWholeBytes (bytes : List Nat) :
    Nat → Nat → Nat → Except RtError (Nat × Nat × Nat)
  | result, n + 8, byteOffset =>
    match idx bytes byteOffset with
    | .error e => .error e
    | .ok b =>
      readBitsWholeBytes bytes ((((result % 256) * 256) % 65536) % 256 ||| (b &&& 0xFF))
        n (byteOffset + 1)
  | result, numBits, byteOffset => .ok (result, numBits, byteOffset)

/-- The "read remainder from current byte" block of `BitSource::readBits`
(the `if self.bit_offset > 0` block).  Returns
`(result, num_bits, byte_offset, bit_offset)` after the block. -/
def readBitsRemainder (s : BitSource) (numBits : Nat) :
    Except RtError (Nat × Nat × Nat × Nat) :=
  if s.bitOffset > 0 then
    match usizeSub 8 s.bitOffset with
    | .error e => .error e
    | .ok bitsLeft =>
      let toRead := min numBits bitsLeft
      let bitsToNotRead := bitsLeft - toRead
      let mask := ((0xFF >>> (8 - toRead)) <<< bitsToNotRead) % 256
      match idx s.bytes s.byteOffset with
      | .error e => .error e
      | .ok b =>
        let result := (b &&& mask) >>> bitsToNotRead
        let bitOffset := s.bitOffset + toRead
        if bitOffset = 8 then .ok (result, numBits - toRead, s.byteOffset + 1, 0)
        else .ok (result, numBits - toRead, s.byteOffset, bitOffset)
  else .ok (0, numBits, s.byteOffset, s.bitOffset)

/-- The "finally read a partial byte" block of `BitSource::readBits`.
Returns `(result, bit_offset)`.  The `u8` value `result << num_bits`
truncates mod 256. -/
def readBitsPartial (bytes : List Nat) (result numBits byteOffset bitOffset : Nat) :
    Except RtError (Nat × Nat) :=
  if numBits > 0 then
    let bitsToNotRead := 8 - numBits
    let mask := ((0xFF >>> bitsToNotRead) <<< bitsToNotRead) % 256
    match idx bytes byteOffset with
    | .error e => .error e
    | .ok b =>
      .ok (((result <<< numBits) % 256) ||| ((b &&& mask) >>> bitsToNotRead),
        bitOffset + numBits)
  else .ok (result, bitOffset)

/-- `BitSource::readBits(numBits)`.  Returns the updated state together
with the returned `Result`; the early `Err(IllegalArgumentException)`
return leaves the state untouched.  All intermediate `u8` arithmetic
truncates mod 256 exactly as in the source. -/
def BitSource.readBits (s : BitSource) (numBits : Nat) :
    Except RtError (Except RtError Nat × BitSource) :=
  if numBits < 1 ∨ 32 < numBits ∨ s.available < numBits then
    .ok (.error .invalidArg, s)
  else
    match readBitsRemainder s numBits with
    | .error e => .error e
    | .ok (result, numBits1, byteOffset1, bitOffset1) =>
      if 0 < numBits1 then
        match readBitsWholeBytes s.bytes result numBits1 byteOffset1 with
        | .error e => .error e
        | .ok (result2, numBits2, byteOffset2) =>
          match readBitsPartial s.bytes result2 numBits2 byteOffset2 bitOffset1 with
          | .error e => .error e
          | .ok (result3, bitOffset3) =>
            .ok (.ok result3,
              { bytes := s.bytes, byteOffset := byteOffset2, bitOffset := bitOffset3 })
      else
        .ok (.ok result,
          { bytes := s.bytes, byteOffset := byteOffset1, bitOffset := bitOffset1 })

example : (BitSource.mk0 [0xAB, 0xCD]).readBits 4 =
    .ok (.ok 0xA, { bytes := [0xAB, 0xCD], byteOffset := 0, bitOffset := 4 }) := rfl

example :
    ({ bytes := [0xAB, 0xCD], byteOffset := 0, bitOffset := 4 } : BitSource).readBits 4 =
    .ok (.ok 0xB, { bytes := [0xAB, 0xCD], byteOffset := 1, bitOffset := 0 }) := rfl

example :
    ({ bytes := [0xAB, 0xCD], byteOffset := 1, bitOffset := 0 } : BitSource).readBits 8 =
    .ok (.ok 0xCD, { bytes := [0xAB, 0xCD], byteOffset := 2, bitOffset := 0 }) := rfl

example : (BitSource.mk0 [0xAB, 0xCD]).readBits 16 = .ok (.ok 0xCD, { bytes := [0xAB, 0xCD], byteOffset := 2, bitOffset := 0 }) := rfl

theorem readBitsWholeBytes_ok (bytes : List Nat) :
    ∀ n res bo, n ≤ 8 * (bytes.length - bo) →
    ∃ r, readBitsWholeBytes bytes res n bo = .ok (r, n % 8, bo + n / 8) := by
  intro n
  induction n using Nat.strong_induction_on with
  | _ n ih =>
    intro res bo h
    by_cases h8 : 8 ≤ n
    · obtain ⟨m, rfl⟩ : ∃ m, n = m + 8 := ⟨n - 8, by omega⟩
      have hbo : bo < bytes.length := by omega
      obtain ⟨b, hb⟩ : ∃ b, bytes.get? bo = some b := ⟨_, List.get?_eq_get hbo⟩
      obtain ⟨r, hr⟩ := ih m (by omega)
        ((((res % 256) * 256) % 65536) % 256 ||| (b &&& 0xFF)) (bo + 1) (by omega)
      refine ⟨r, ?_⟩
      have hm8 : (m + 8) % 8 = m % 8 := by omega
      have hd8 : bo + (m + 8) / 8 = (bo + 1) + m / 8 := by omega
      simp only [readBitsWholeBytes, idx, hb, hr, hm8, hd8]
    · interval_cases n <;>
        exact ⟨res, by simp [readBitsWholeBytes]⟩

theorem readBitsRemainder_ok (s : BitSource) (numBits : Nat) (hbio : s.bitOffset < 8)
    (h1 : 1 ≤ numBits) (h2 : numBits ≤ s.available) :
    ∃ res nb1 bo1 bio1, readBitsRemainder s numBits = .ok (res, nb1, bo1, bio1) ∧
      nb1 ≤ numBits ∧ bio1 < 8 ∧ (0 < nb1 → bio1 = 0) ∧
      8 * (s.bytes.length - bo1) - bio1 + (numBits - nb1) = s.available := by
  simp only [BitSource.available] at h2 ⊢
  by_cases h0 : s.bitOffset > 0
  · have hbo : s.byteOffset < s.bytes.length := by omega
    obtain ⟨b, hb⟩ : ∃ b, s.bytes.get? s.byteOffset = some b := ⟨_, List.get?_eq_get hbo⟩
    have hsub : usizeSub 8 s.bitOffset = .ok (8 - s.bitOffset) := by
      simp only [usizeSub, if_neg (by omega : ¬(8 < s.bitOffset))]
    by_cases hfull : s.bitOffset + min numBits (8 - s.bitOffset) = 8
    · refine ⟨(b &&& ((0xFF >>> (8 - min numBits (8 - s.bitOffset))) <<<
          ((8 - s.bitOffset) - min numBits (8 - s.bitOffset)) % 256)) >>>
          ((8 - s.bitOffset) - min numBits (8 - s.bitOffset)),
        numBits - min numBits (8 - s.bitOffset), s.byteOffset + 1, 0, ?_, by omega, by omega,
        by omega, by omega⟩
      simp only [readBitsRemainder, if_pos h0, hsub, idx, hb, if_pos hfull]
    · refine ⟨(b &&& ((0xFF >>> (8 - min numBits (8 - s.bitOffset))) <<<
          ((8 - s.bitOffset) - min numBits (8 - s.bitOffset)) % 256)) >>>
          ((8 - s.bitOffset) - min numBits (8 - s.bitOffset)),
        numBits - min numBits (8 - s.bitOffset), s.byteOffset,
        s.bitOffset + min numBits (8 - s.bitOffset), ?_, by omega, by omega, by omega, by omega⟩
      simp only [readBitsRemainder, if_pos h0, hsub, idx, hb, if_neg hfull]
  · exact ⟨0, numBits, s.byteOffset, s.bitOffset, by
      simp only [readBitsRemainder, if_neg h0], by omega, hbio, by omega, by omega⟩

theorem readBitsPartial_ok (bytes : List Nat) (res nb bo bio : Nat)
    (hbudget : nb ≤ 8 * (bytes.length - bo) - bio) :
    ∃ r, readBitsPartial bytes res nb bo bio = .ok (r, bio + nb) := by
  by_cases h0 : nb > 0
  · have hbo : bo < bytes.length := by omega
    obtain ⟨b, hb⟩ : ∃ b, bytes.get? bo = some b := ⟨_, List.get?_eq_get hbo⟩
    exact ⟨((res <<< nb) % 256) ||| ((b &&& ((0xFF >>> (8 - nb)) <<< (8 - nb) % 256)) >>> (8 - nb)),
      by simp only [readBitsPartial, if_pos h0, idx, hb]⟩
  · have hnb : nb = 0 := by omega
    subst hnb
    exact ⟨res, by simp only [readBitsPartial]; rfl⟩

theorem readBits_ok_of_valid (s : BitSource) (n : Nat) (hwf : s.bitOffset < 8)
    (h1 : 1 ≤ n) (h2 : n ≤ 32) (h3 : n ≤ s.available) :
    ∃ v t, s.readBits n = .ok (.ok v, t) ∧ t.available + n = s.available ∧
      t.bytes = s.bytes ∧ t.bitOffset < 8 := by
  obtain ⟨res, nb1, bo1, bio1, hrem, hle, hbio1, hz, hav1⟩ :=
    readBitsRemainder_ok s n hwf h1 h3
  by_cases hnb1 : 0 < nb1
  · have hbio10 : bio1 = 0 := hz hnb1
    have hav1' : 8 * (s.bytes.length - bo1) - bio1 + (n - nb1) =
        8 * (s.bytes.length - s.byteOffset) - s.bitOffset := hav1
    have hbudget1 : nb1 ≤ 8 * (s.bytes.length - bo1) := by
      simp only [BitSource.available] at h3
      omega
    obtain ⟨r2, hloop⟩ := readBitsWholeBytes_ok s.bytes nb1 res bo1 hbudget1
    have hbudget2 : nb1 % 8 ≤ 8 * (s.bytes.length - (bo1 + nb1 / 8)) - bio1 := by omega
    obtain ⟨r3, hpart⟩ := readBitsPartial_ok s.bytes r2 (nb1 % 8) (bo1 + nb1 / 8) bio1 hbudget2
    refine ⟨r3, { bytes := s.bytes, byteOffset := bo1 + nb1 / 8, bitOffset := bio1 + nb1 % 8 },
      ?_, ?_, rfl, ?_⟩
    · simp only [BitSource.readBits, if_neg (by omega : ¬(n < 1 ∨ 32 < n ∨ s.available < n)),
        hrem, if_pos hnb1, hloop, hpart]
    · show 8 * (s.bytes.length - (bo1 + nb1 / 8)) - (bio1 + nb1 % 8) + n = s.available
      simp only [BitSource.available] at h3 hav1 ⊢
      omega
    · show bio1 + nb1 % 8 < 8
      omega
  · refine ⟨res, { bytes := s.bytes, byteOffset := bo1, bitOffset := bio1 }, ?_, ?_, rfl, hbio1⟩
    · simp only [BitSource.readBits, if_neg (by omega : ¬(n < 1 ∨ 32 < n ∨ s.available < n)),
        hrem, if_neg hnb1]
    · show 8 * (s.bytes.length - bo1) - bio1 + n = s.available
      simp only [BitSource.available] at h3 hav1 ⊢
      omega

/-! ## CharacterSetECI (src/src/common/mod.rs lines 2413-2664)

The closed enumeration of ECI-designated encodings. -/

inductive CharacterSetECI where
  | Cp437
  | ISO8859_1
  | ISO8859_2
  | ISO8859_3
  | ISO8859_4
  | ISO8859_5
  | ISO8859_6
  | ISO8859_7
  | ISO8859_8
  | ISO8859_9
  | ISO8859_10
  | ISO8859_11
  | ISO8859_13
  | ISO8859_14
  | ISO8859_15
  | ISO8859_16
  | SJIS
  | Cp1250
  | Cp1251
  | Cp1252
  | Cp1256
  | UnicodeBigUnmarked
  | UTF8
  | ASCII
  | Big5
  | GB18030
  | EUC_KR
deriving Repr, DecidableEq, Fintype

/-- `CharacterSetECI::getValue` (mod.rs lines 2480-2510). -/
def CharacterSetECI.getValue : CharacterSetECI → Nat
  | .Cp437 => 0
  | .ISO8859_1 => 1
  | .ISO8859_2 => 4
  | .ISO8859_3 => 5
  | .ISO8859_4 => 6
  | .ISO8859_5 => 7
  | .ISO8859_6 => 8
  | .ISO8859_7 => 9
  | .ISO8859_8 => 10
  | .ISO8859_9 => 11
  | .ISO8859_10 => 12
  | .ISO8859_11 => 13
  | .ISO8859_13 => 15
  | .ISO8859_14 => 16
  | .ISO8859_15 => 17
  | .ISO8859_16 => 18
  | .SJIS => 20
  | .Cp1250 => 21
  | .Cp1251 => 22
  | .Cp1252 => 23
  | .Cp1256 => 24
  | .UnicodeBigUnmarked => 25
  | .UTF8 => 26
  | .ASCII => 27
  | .Big5 => 28
  | .GB18030 => 29
  | .EUC_KR => 30

/-- `CharacterSetECI::getCharacterSetECIByValue` (mod.rs lines 2594-2625).
The Rust `match` with multi-value arms `0 | 2` and `27 | 170` is translated
as a first-match chain of conditions. -/
def CharacterSetECI.getCharacterSetECIByValue (value : Nat) : Except RtError CharacterSetECI :=
  if value = 0 ∨ value = 2 then .ok .Cp437
  else if value = 1 ∨ value = 3 then .ok .ISO8859_1
  else if value = 4 then .ok .ISO8859_2
  else if value = 5 then .ok .ISO8859_3
  else if value = 6 then .ok .ISO8859_4
  else if value = 7 then .ok .ISO8859_5
  else if value = 8 then .ok .ISO8859_6
  else if value = 9 then .ok .ISO8859_7
  else if value = 10 then .ok .ISO8859_8
  else if value = 11 then .ok .ISO8859_9
  else if value = 12 then .ok .ISO8859_10
  else if value = 13 then .ok .ISO8859_11
  else if value = 15 then .ok .ISO8859_13
  else if value = 16 then .ok .ISO8859_14
  else if value = 17 then .ok .ISO8859_15
  else if value = 18 then .ok .ISO8859_16
  else if value = 20 then .ok .SJIS
  else if value = 21 then .ok .Cp1250
  else if value = 22 then .ok .Cp1251
  else if value = 23 then .ok .Cp1252
  else if value = 24 then .ok .Cp1256
  else if value = 25 then .ok .UnicodeBigUnmarked
  else if value = 26 then .ok .UTF8
  else if value = 27 ∨ value = 170 then .ok .ASCII
  else if value = 28 then .ok .Big5
  else if value = 29 then .ok .GB18030
  else if value = 30 then .ok .EUC_KR
  else .error .notFound

theorem getCharacterSetECIByValue_high (v : Nat) (hv : 170 < v) :
    CharacterSetECI.getCharacterSetECIByValue v = .error .notFound := by
  unfold CharacterSetECI.getCharacterSetECIByValue
  rw [if_neg (show ¬(v = 0 ∨ v = 2) by omega), if_neg (show ¬(v = 1 ∨ v = 3) by omega),
    if_neg (show ¬(v = 4) by omega), if_neg (show ¬(v = 5) by omega),
    if_neg (show ¬(v = 6) by omega), if_neg (show ¬(v = 7) by omega),
    if_neg (show ¬(v = 8) by omega), if_neg (show ¬(v = 9) by omega),
    if_neg (show ¬(v = 10) by omega), if_neg (show ¬(v = 11) by omega),
    if_neg (show ¬(v = 12) by omega), if_neg (show ¬(v = 13) by omega),
    if_neg (show ¬(v = 15) by omega), if_neg (show ¬(v = 16) by omega),
    if_neg (show ¬(v = 17) by omega), if_neg (show ¬(v = 18) by omega),
    if_neg (show ¬(v = 20) by omega), if_neg (show ¬(v = 21) by omega),
    if_neg (show ¬(v = 22) by omega), if_neg (show ¬(v = 23) by omega),
    if_neg (show ¬(v = 24) by omega), if_neg (show ¬(v = 25) by omega),
    if_neg (show ¬(v = 26) by omega), if_neg (show ¬(v = 27 ∨ v = 170) by omega),
    if_neg (show ¬(v = 28) by omega), if_neg (show ¬(v = 29) by omega),
    if_neg (show ¬(v = 30) by omega)]

set_option maxRecDepth 4096 in
theorem getValue_getCharacterSetECIByValue_low :
    ∀ v : Fin 171, ∀ e : CharacterSetECI,
    CharacterSetECI.getCharacterSetECIByValue v.val = .ok e →
    v.val ≠ 2 → v.val ≠ 3 → v.val ≠ 170 → e.getValue = v.val := by decide

/-- C7 (amended): for every recognized ECI value other than the alias
values 2, 3 and 170, `getValue` of `getCharacterSetECIByValue` returns the
value itself; the aliases map to the canonical value of their character
set instead. -/
theorem c7_getValue_roundtrip (v : Nat) (e : CharacterSetECI)
    (h : CharacterSetECI.getCharacterSetECIByValue v = .ok e)
    (h2 : v ≠ 2) (h3 : v ≠ 3) (h170 : v ≠ 170) : e.getValue = v := by
  by_cases hv : v ≤ 170
  · exact getValue_getCharacterSetECIByValue_low ⟨v, by omega⟩ e h h2 h3 h170
  · rw [getCharacterSetECIByValue_high v (by omega)] at h
    exact absurd h (by simp)

/-- Witness for `c7_getValue_roundtrip` at the recognized value 26 (UTF-8). -/
theorem c7_getValue_roundtrip_witness :
    CharacterSetECI.getCharacterSetECIByValue 26 = .ok .UTF8 ∧
    CharacterSetECI.getValue .UTF8 = 26 :=
  ⟨by decide, c7_getValue_roundtrip 26 .UTF8 (by decide) (by decide) (by decide) (by decide)⟩

/-- C7 counterexample: the alias value 2 is recognized (it yields Cp437),
but `getValue` on the result returns the canonical value 0, not 2. -/
theorem c7_alias_counterexample :
    CharacterSetECI.getCharacterSetECIByValue 2 = .ok .Cp437 ∧
    CharacterSetECI.getValue .Cp437 = 0 ∧ (0 : Nat) ≠ 2 := by decide

/-- C9: `BitSource::readBits` is atomic in its error handling: the
argument violations (`n < 1`, `n > 32`, `n > available`) produce the
`InvalidArgument` error with the state untouched, every error return
leaves the state untouched, and a successful read decreases `available()`
by exactly `n`. -/
theorem c9_readBits_atomic (s : BitSource) (n : Nat) (hwf : s.bitOffset < 8) :
    ((n < 1 ∨ 32 < n ∨ s.available < n) → s.readBits n = .ok (.error .invalidArg, s)) ∧
    (∀ e t, s.readBits n = .ok (.error e, t) → t = s) ∧
    (∀ v t, s.readBits n = .ok (.ok v, t) → t.available + n = s.available) := by
  refine ⟨?_, ?_, ?_⟩
  · intro h
    simp only [BitSource.readBits, if_pos h]
  · intro e t h
    by_cases hc : n < 1 ∨ 32 < n ∨ s.available < n
    · simp only [BitSource.readBits, if_pos hc, Except.ok.injEq, Prod.mk.injEq] at h
      exact h.2.symm
    · obtain ⟨v, t0, hok, _, _, _⟩ :=
        readBits_ok_of_valid s n hwf (by omega) (by omega) (by omega)
      rw [hok] at h
      simp only [Except.ok.injEq, Prod.mk.injEq] at h
      exact absurd h.1 (by simp)
  · intro v t h
    by_cases hc : n < 1 ∨ 32 < n ∨ s.available < n
    · simp only [BitSource.readBits, if_pos hc, Except.ok.injEq, Prod.mk.injEq] at h
      exact absurd h.1 (by simp)
    · obtain ⟨v0, t0, hok, hav, _, _⟩ :=
        readBits_ok_of_valid s n hwf (by omega) (by omega) (by omega)
      rw [hok] at h
      simp only [Except.ok.injEq, Prod.mk.injEq] at h
      exact h.2 ▸ hav

/-- Witness for `c9_readBits_atomic`: over-reading 17 bits from a 16-bit
source fails with InvalidArgument and leaves the state untouched. -/
theorem c9_readBits_atomic_witness : (BitSource.mk0 [0xAB, 0xCD]).readBits 17 =
    .ok (.error .invalidArg, BitSource.mk0 [0xAB, 0xCD]) :=
  (c9_readBits_atomic (BitSource.mk0 [0xAB, 0xCD]) 17 (by decide)).1 (by decide)

/-- C2: on the buffer `[0xAB, 0xCD]` the spec example
`readBits(4) = 0xA; readBits(4) = 0xB; readBits(8) = 0xCD; available() = 0`
holds, but the general claim fails for reads wider than 8 bits: the `u8`
accumulator truncates, so `readBits(16)` returns `0xCD`, not the next 16
bits `0xABCD` of the stream. -/
theorem c2_readBits_truncates :
    (BitSource.mk0 [0xAB, 0xCD]).readBits 4 =
      .ok (.ok 0xA, { bytes := [0xAB, 0xCD], byteOffset := 0, bitOffset := 4 }) ∧
    ({ bytes := [0xAB, 0xCD], byteOffset := 0, bitOffset := 4 } : BitSource).readBits 4 =
      .ok (.ok 0xB, { bytes := [0xAB, 0xCD], byteOffset := 1, bitOffset := 0 }) ∧
    ({ bytes := [0xAB, 0xCD], byteOffset := 1, bitOffset := 0 } : BitSource).readBits 8 =
      .ok (.ok 0xCD, { bytes := [0xAB, 0xCD], byteOffset := 2, bitOffset := 0 }) ∧
    ({ bytes := [0xAB, 0xCD], byteOffset := 2, bitOffset := 0 } : BitSource).available = 0 ∧
    (BitSource.mk0 [0xAB, 0xCD]).readBits 16 =
      .ok (.ok 0xCD, { bytes := [0xAB, 0xCD], byteOffset := 2, bitOffset := 0 }) ∧
    (0xCD : Nat) ≠ 0xABCD :=
  ⟨rfl, rfl, rfl, rfl, rfl, by decide⟩

/-! ## BitArray (src/src/common/mod.rs lines 334-671)

`struct BitArray { bits: Vec<u32>, size: usize }`.  Words are `u32`,
modelled as `Nat` kept below `2 ^ 32`; bit `i` lives in word `i / 32` at
position `i % 32`. -/

structure BitArray where
  bits : List Nat
  size : Nat
deriving Repr, DecidableEq

/-- Word access `ws[i]` where reads beyond the vector return 0 (used only
where the source code is known to stay in bounds). -/
def wordAt (ws : List Nat) (i : Nat) : Nat := (ws.get? i).getD 0

/-- The logical bit at stream position `k` of a word vector. -/
def seqBit (ws : List Nat) (k : Nat) : Bool := Nat.testBit (wordAt ws (k / 32)) (k % 32)

/-- `BitArray::get(i): (bits[i / 32] & (1 << (i & 0x1F))) != 0`. -/
def BitArray.get (a : BitArray) (i : Nat) : Bool :=
  (wordAt a.bits (i / 32)) &&& (1 <<< (i % 32)) != 0

/-- `u32::reverse_bits`, built by peeling `n` low bits off the input and
emitting them at mirrored positions. -/
def revBitsAux : Nat → Nat → Nat
  | 0, _ => 0
  | n + 1, w => ((w % 2) <<< n) ||| revBitsAux n (w / 2)

/-- `u32::reverse_bits`. -/
def reverseBits32 (w : Nat) : Nat := revBitsAux 32 w

theorem revBitsAux_lt (n : Nat) : ∀ w, revBitsAux n w < 2 ^ n := by
  induction n with
  | zero => intro w; simp [revBitsAux]
  | succ n ih =>
    intro w
    have h1 : (w % 2) <<< n < 2 ^ (n + 1) := by
      rw [Nat.shiftLeft_eq]
      have : w % 2 < 2 := Nat.mod_lt _ (by norm_num)
      calc (w % 2) * 2 ^ n < 2 * 2 ^ n := by
            have hp : 0 < 2 ^ n := Nat.pos_pow_of_pos n (by norm_num)
            exact Nat.mul_lt_mul_of_lt_of_le this (le_refl _) hp
        _ = 2 ^ (n + 1) := by ring
    have h2 : revBitsAux n (w / 2) < 2 ^ (n + 1) :=
      lt_trans (ih (w / 2)) (Nat.pow_lt_pow_right (by norm_num) (by omega))
    exact Nat.or_lt_two_pow h1 h2

theorem revBitsAux_testBit (n : Nat) : ∀ w j, (revBitsAux n w).testBit j =
    (decide (j < n) && w.testBit (n - 1 - j)) := by
  induction n with
  | zero => intro w j; simp [revBitsAux]
  | succ n ih =>
    intro w j
    simp only [revBitsAux, Nat.testBit_or, Nat.testBit_shiftLeft, ih]
    rcases Nat.lt_trichotomy j n with h | h | h
    · have e1 : decide (j ≥ n) = false := by simp; omega
      have e2 : decide (j < n) = true := by simp [h]
      have e3 : decide (j < n + 1) = true := by simp; omega
      have e4 : (w / 2).testBit (n - 1 - j) = w.testBit (n + 1 - 1 - j) := by
        rw [Nat.testBit_div_two]
        congr 1
        omega
      rw [e1, e2, e3, e4]
      simp
    · subst h
      have e1 : decide (j ≥ j) = true := by simp
      have e2 : decide (j < j) = false := by simp
      have e3 : decide (j < j + 1) = true := by simp
      have e4 : (w % 2).testBit (j - j) = w.testBit (j + 1 - 1 - j) := by
        have : w % 2 = w % 2 ^ 1 := by norm_num
        rw [this]
        simp only [Nat.testBit_mod_two_pow]
        have h0 : j - j = 0 := by omega
        have h1 : j + 1 - 1 - j = 0 := by omega
        rw [h0, h1]
        simp
      rw [e1, e2, e3, e4]
      simp
    · have e1 : decide (j < n) = false := by simp; omega
      have e2 : decide (j < n + 1) = false := by simp; omega
      have e3 : (w % 2).testBit (j - n) = false := by
        apply Nat.testBit_lt_two_pow
        calc w % 2 < 2 ^ 1 := by norm_num [Nat.mod_lt]
          _ ≤ 2 ^ (j - n) := Nat.pow_le_pow_right (by norm_num) (by omega)
      rw [e1, e2, e3]
      simp

theorem seqBit_cons (w : Nat) (rest : List Nat) (k : Nat) :
    seqBit (w :: rest) k = if k < 32 then w.testBit k else seqBit rest (k - 32) := by
  unfold seqBit wordAt
  by_cases hk : k < 32
  · rw [if_pos hk]
    have h0 : k / 32 = 0 := by omega
    have h1 : k % 32 = k := by omega
    rw [h0, h1]
    rfl
  · rw [if_neg hk]
    have h0 : k / 32 = (k - 32) / 32 + 1 := by omega
    have h1 : k % 32 = (k - 32) % 32 := by omega
    rw [h0, h1]
    rfl

theorem seqBit_nil (k : Nat) : seqBit [] k = false := by
  unfold seqBit wordAt
  simp

/-- The word-shift loop at the end of `BitArray::reverse` (mod.rs lines
654-665): it rewrites each word to
`newBits[i-1] = (newBits[i-1] >> leftOffset) | (newBits[i] << (32 - leftOffset))`
carrying `currentInt = newBits[i] >> leftOffset` forward, and finally
`newBits[oldBitsLen-1] = currentInt`.  The `u32` left shift truncates mod
`2 ^ 32`. -/
def reverseCorrectLoop (leftOffset : Nat) : List Nat → List Nat
  | [] => []
  | [w] => [w >>> leftOffset]
  | w :: w2 :: rest =>
    ((w >>> leftOffset) ||| ((w2 <<< (32 - leftOffset)) % 2 ^ 32)) ::
      reverseCorrectLoop leftOffset (w2 :: rest)

theorem reverseCorrectLoop_length (lo : Nat) : ∀ ws : List Nat,
    (reverseCorrectLoop lo ws).length = ws.length
  | [] => rfl
  | [_] => rfl
  | _ :: w2 :: rest => by
    simp only [reverseCorrectLoop, List.length_cons]
    rw [reverseCorrectLoop_length lo (w2 :: rest)]
    simp

theorem reverseCorrectLoop_lt (lo : Nat) : ∀ ws : List Nat,
    (∀ w ∈ ws, w < 2 ^ 32) → ∀ w ∈ reverseCorrectLoop lo ws, w < 2 ^ 32
  | [], _, w, hw => by simp [reverseCorrectLoop] at hw
  | [x], h, w, hw => by
    simp only [reverseCorrectLoop, List.mem_singleton] at hw
    subst hw
    calc x >>> lo ≤ x := by
          rw [Nat.shiftRight_eq_div_pow]
          exact Nat.div_le_self _ _
      _ < 2 ^ 32 := h x (by simp)
  | x :: w2 :: rest, h, w, hw => by
    simp only [reverseCorrectLoop, List.mem_cons] at hw
    rcases hw with hw | hw
    · subst hw
      apply Nat.or_lt_two_pow
      · calc x >>> lo ≤ x := by
              rw [Nat.shiftRight_eq_div_pow]
              exact Nat.div_le_self _ _
          _ < 2 ^ 32 := h x (by simp)
      · exact Nat.mod_lt _ (by norm_num)
    · exact reverseCorrectLoop_lt lo (w2 :: rest)
        (fun y hy => h y (List.mem_cons_of_mem _ hy)) w hw

theorem reverseCorrectLoop_seqBit (lo : Nat) (hlo1 : 1 ≤ lo) (hlo2 : lo < 32) :
    ∀ ws : List Nat, (∀ w ∈ ws, w < 2 ^ 32) → ∀ k,
    seqBit (reverseCorrectLoop lo ws) k =
      if k + lo < 32 * ws.length then seqBit ws (k + lo) else false
  | [], _, k => by
    simp [reverseCorrectLoop, seqBit_nil]
  | [w], h, k => by
    have hw : w < 2 ^ 32 := h w (by simp)
    simp only [reverseCorrectLoop]
    rw [seqBit_cons]
    by_cases hk : k < 32
    · rw [if_pos hk, Nat.testBit_shiftRight]
      by_cases hkl : k + lo < 32 * [w].length
      · rw [if_pos hkl, seqBit_cons]
        simp only [List.length_singleton] at hkl
        rw [if_pos (by omega : k + lo < 32)]
        congr 1
        omega
      · rw [if_neg hkl]
        simp only [List.length_singleton] at hkl
        apply Nat.testBit_lt_two_pow
        calc w < 2 ^ 32 := hw
          _ ≤ 2 ^ (lo + k) := Nat.pow_le_pow_right (by norm_num) (by omega)
    · rw [if_neg hk, if_neg (by simp only [List.length_singleton]; omega), seqBit_nil]
  | w :: w2 :: rest, h, k => by
    have hw : w < 2 ^ 32 := h w (by simp)
    have htl : ∀ y ∈ w2 :: rest, y < 2 ^ 32 := fun y hy => h y (List.mem_cons_of_mem _ hy)
    simp only [reverseCorrectLoop]
    rw [seqBit_cons]
    by_cases hk : k < 32
    · have hlen : k + lo < 32 * (w :: w2 :: rest).length := by
        simp only [List.length_cons]
        omega
      rw [if_pos hk, if_pos hlen]
      simp only [Nat.testBit_or, Nat.testBit_shiftRight, Nat.testBit_mod_two_pow,
        Nat.testBit_shiftLeft]
      rw [seqBit_cons]
      by_cases hkl : k + lo < 32
      · rw [if_pos hkl]
        have e1 : decide (32 - lo ≤ k) = false := by simp; omega
        have e2 : lo + k = k + lo := by omega
        rw [e1, e2]
        simp
      · rw [if_neg hkl, seqBit_cons, if_pos (by omega : k + lo - 32 < 32)]
        have e1 : w.testBit (lo + k) = false := by
          apply Nat.testBit_lt_two_pow
          calc w < 2 ^ 32 := hw
            _ ≤ 2 ^ (lo + k) := Nat.pow_le_pow_right (by norm_num) (by omega)
        have e2 : decide (32 - lo ≤ k) = true := by simp; omega
        have e3 : decide (k < 32) = true := by simp [hk]
        have e4 : k - (32 - lo) = k + lo - 32 := by omega
        rw [e1, e2, e3, e4]
        simp
    · rw [if_neg hk]
      rw [reverseCorrectLoop_seqBit lo hlo1 hlo2 (w2 :: rest) htl (k - 32)]
      simp only [List.length_cons]
      by_cases hc : k - 32 + lo < 32 * (rest.length + 1)
      · rw [if_pos hc, if_pos (show k + lo < 32 * (rest.length + 1 + 1) by omega)]
        rw [seqBit_cons w (w2 :: rest) (k + lo), if_neg (show ¬(k + lo < 32) by omega)]
        congr 1
        omega
      · rw [if_neg hc, if_neg (show ¬(k + lo < 32 * (rest.length + 1 + 1)) by omega)]

theorem wordAt_eq_zero_of_len_le (l : List Nat) (i : Nat) (h : l.length ≤ i) :
    wordAt l i = 0 := by
  unfold wordAt
  rw [List.get?_eq_none.mpr h]
  rfl

theorem wordRev_seqBit (ws : List Nat) (len k : Nat) :
    seqBit ((List.range (len + 1)).map (fun j => reverseBits32 (wordAt ws (len - j)))) k =
    if k < 32 * (len + 1) then seqBit ws (32 * (len + 1) - 1 - k) else false := by
  by_cases hk : k < 32 * (len + 1)
  · rw [if_pos hk]
    unfold seqBit
    have hj : k / 32 < len + 1 := by omega
    have hmap : wordAt ((List.range (len + 1)).map
        (fun j => reverseBits32 (wordAt ws (len - j)))) (k / 32) =
        reverseBits32 (wordAt ws (len - k / 32)) := by
      unfold wordAt
      rw [List.get?_map, List.get?_range hj]
      rfl
    rw [hmap]
    unfold reverseBits32
    rw [revBitsAux_testBit]
    have e0 : decide (k % 32 < 32) = true := by simp [Nat.mod_lt]
    have e1 : (32 * (len + 1) - 1 - k) / 32 = len - k / 32 := by omega
    have e2 : (32 * (len + 1) - 1 - k) % 32 = 31 - k % 32 := by omega
    rw [e0, e1, e2]
    simp only [Bool.true_and]
  · rw [if_neg hk]
    unfold seqBit
    rw [wordAt_eq_zero_of_len_le _ _
      (by simp only [List.length_map, List.length_range]; omega)]
    simp

/-- `BitArray::reverse` (mod.rs lines 644-667).  For `size = 0` the
expression `(self.size - 1) / 32` underflows `usize`, a panic; the word
copy loop `newBits[len - i] = self.bits[i].reverse_bits()` (indices
reindexed by `j = len - i` below) panics if the vector is shorter than
`oldBitsLen` words.  `newBits` starts as `vec![0; self.bits.len()]`, so
the words beyond `oldBitsLen` stay zero. -/
def BitArray.reverse (a : BitArray) : Except RtError BitArray :=
  match usizeSub a.size 1 with
  | .error e => .error e
  | .ok sm1 =>
    let len := sm1 / 32
    let oldBitsLen := len + 1
    if a.bits.length < oldBitsLen then .error .panicked
    else
      let wordRev := (List.range oldBitsLen).map (fun j => reverseBits32 (wordAt a.bits (len - j)))
      let pad := List.replicate (a.bits.length - oldBitsLen) 0
      if a.size ≠ oldBitsLen * 32 then
        let leftOffset := oldBitsLen * 32 - a.size
        .ok { bits := reverseCorrectLoop leftOffset wordRev ++ pad, size := a.size }
      else
        .ok { bits := wordRev ++ pad, size := a.size }

theorem wordAt_append_pad (xs : List Nat) (m i : Nat) :
    wordAt (xs ++ List.replicate m 0) i = if i < xs.length then wordAt xs i else 0 := by
  unfold wordAt
  rw [List.get?_eq_getElem?, List.get?_eq_getElem?, List.getElem?_append]
  by_cases h : i < xs.length
  · rw [if_pos h, if_pos h]
  · rw [if_neg h, if_neg h, List.getElem?_replicate]
    split <;> rfl

theorem seqBit_append_pad (xs : List Nat) (m k : Nat) :
    seqBit (xs ++ List.replicate m 0) k = if k / 32 < xs.length then seqBit xs k else false := by
  unfold seqBit
  rw [wordAt_append_pad]
  split
  · rfl
  · simp

theorem reverse_spec (a : BitArray)
    (hcap : a.size ≤ 32 * a.bits.length) (hs : 1 ≤ a.size) :
    ∃ b, a.reverse = .ok b ∧ b.size = a.size ∧ b.bits.length = a.bits.length ∧
      (∀ w ∈ b.bits, w < 2 ^ 32) ∧
      (∀ k, seqBit b.bits k = if k < a.size then seqBit a.bits (a.size - 1 - k) else false) := by
  have hsub : usizeSub a.size 1 = .ok (a.size - 1) := by
    unfold usizeSub
    rw [if_neg (by omega)]
  have holen : (a.size - 1) / 32 + 1 ≤ a.bits.length := by omega
  set len := (a.size - 1) / 32 with hlen
  set wr := (List.range (len + 1)).map (fun j => reverseBits32 (wordAt a.bits (len - j)))
    with hwr
  set pad := List.replicate (a.bits.length - (len + 1)) 0 with hpad
  have hwrlen : wr.length = len + 1 := by
    rw [hwr]
    simp
  have hwrlt : ∀ w ∈ wr, w < 2 ^ 32 := by
    intro w hmem
    rw [hwr] at hmem
    obtain ⟨j, _, rfl⟩ := List.mem_map.mp hmem
    exact revBitsAux_lt 32 _
  have hsz : a.size ≤ 32 * (len + 1) ∧ 32 * len < a.size := by
    constructor <;> omega
  by_cases hneq : a.size ≠ (len + 1) * 32
  · -- correction branch
    set lo := (len + 1) * 32 - a.size with hlo
    have hlo1 : 1 ≤ lo := by omega
    have hlo2 : lo < 32 := by omega
    refine ⟨{ bits := reverseCorrectLoop lo wr ++ pad, size := a.size }, ?_, rfl, ?_, ?_, ?_⟩
    · unfold BitArray.reverse
      rw [hsub]
      simp only [← hlen]
      rw [if_neg (by omega), if_pos hneq]
    · simp only [List.length_append, reverseCorrectLoop_length, hwrlen, hpad,
        List.length_replicate]
      omega
    · intro w hmem
      simp only [List.mem_append] at hmem
      rcases hmem with hmem | hmem
      · exact reverseCorrectLoop_lt lo wr hwrlt w hmem
      · rw [hpad] at hmem
        have := List.eq_of_mem_replicate hmem
        omega
    · intro k
      rw [seqBit_append_pad, reverseCorrectLoop_length, hwrlen]
      by_cases hk32 : k / 32 < len + 1
      · rw [if_pos hk32, reverseCorrectLoop_seqBit lo hlo1 hlo2 wr hwrlt k, hwrlen]
        by_cases hks : k < a.size
        · rw [if_pos (by omega : k + lo < 32 * (len + 1)), if_pos hks, hwr, wordRev_seqBit,
            if_pos (by omega : k + lo < 32 * (len + 1))]
          congr 1
          omega
        · rw [if_neg (by omega : ¬(k + lo < 32 * (len + 1))), if_neg hks]
      · rw [if_neg hk32, if_neg (by omega : ¬(k < a.size))]
  · -- aligned branch: a.size = (len + 1) * 32
    refine ⟨{ bits := wr ++ pad, size := a.size }, ?_, rfl, ?_, ?_, ?_⟩
    · unfold BitArray.reverse
      rw [hsub]
      simp only [← hlen]
      rw [if_neg (by omega), if_neg hneq]
    · simp only [List.length_append, hwrlen, hpad, List.length_replicate]
      omega
    · intro w hmem
      simp only [List.mem_append] at hmem
      rcases hmem with hmem | hmem
      · exact hwrlt w hmem
      · rw [hpad] at hmem
        have := List.eq_of_mem_replicate hmem
        omega
    · intro k
      rw [seqBit_append_pad, hwrlen]
      by_cases hk32 : k / 32 < len + 1
      · rw [if_pos hk32, hwr, wordRev_seqBit, if_pos (by omega : k < 32 * (len + 1)),
          if_pos (by omega : k < a.size)]
        congr 1
        omega
      · rw [if_neg hk32, if_neg (by omega : ¬(k < a.size))]

theorem seqBit_ge_len (ws : List Nat) (k : Nat) (h : 32 * ws.length ≤ k) :
    seqBit ws k = false := by
  unfold seqBit
  rw [wordAt_eq_zero_of_len_le _ _ (by omega)]
  simp

theorem wordAt_lt (ws : List Nat) (i : Nat) (h : ∀ w ∈ ws, w < 2 ^ 32) :
    wordAt ws i < 2 ^ 32 := by
  unfold wordAt
  rcases hg : ws.get? i with _ | w
  · simp
  · exact h w (List.get?_mem hg)

theorem seqBit_at (ws : List Nat) (n r : Nat) (hr : r < 32) :
    seqBit ws (32 * n + r) = (wordAt ws n).testBit r := by
  unfold seqBit
  have e1 : (32 * n + r) / 32 = n := by omega
  have e2 : (32 * n + r) % 32 = r := by omega
  rw [e1, e2]

theorem bits_eq_of_seqBit_eq (xs ys : List Nat) (hlen : xs.length = ys.length)
    (hx : ∀ w ∈ xs, w < 2 ^ 32) (hy : ∀ w ∈ ys, w < 2 ^ 32)
    (h : ∀ k, seqBit xs k = seqBit ys k) : xs = ys := by
  apply List.ext_get?
  intro n
  by_cases hn : n < xs.length
  · have hn2 : n < ys.length := by omega
    rw [List.get?_eq_get hn, List.get?_eq_get hn2]
    have hword : wordAt xs n = wordAt ys n := by
      apply Nat.eq_of_testBit_eq
      intro r
      by_cases hr : r < 32
      · rw [← seqBit_at xs n r hr, ← seqBit_at ys n r hr]
        exact h (32 * n + r)
      · rw [Nat.testBit_lt_two_pow, Nat.testBit_lt_two_pow]
        · calc wordAt ys n < 2 ^ 32 := wordAt_lt ys n hy
            _ ≤ 2 ^ r := Nat.pow_le_pow_right (by norm_num) (by omega)
        · calc wordAt xs n < 2 ^ 32 := wordAt_lt xs n hx
            _ ≤ 2 ^ r := Nat.pow_le_pow_right (by norm_num) (by omega)
    unfold wordAt at hword
    rw [List.get?_eq_get hn, List.get?_eq_get hn2] at hword
    simp only [Option.getD_some] at hword
    rw [hword]
  · rw [List.get?_eq_none.mpr (by omega), List.get?_eq_none.mpr (by omega)]

theorem BitArray.get_eq_seqBit (a : BitArray) (i : Nat) : a.get i = seqBit a.bits i := by
  unfold BitArray.get seqBit
  rw [Nat.shiftLeft_eq, one_mul, Nat.and_two_pow]
  rcases hb : (wordAt a.bits (i / 32)).testBit (i % 32)
  · simp [hb]
  · simp [hb]

/-- C8 (amended): for every well-formed `BitArray` of size at least 1
(words below `2 ^ 32`, `size` within capacity, all bits at or beyond
`size` zero), `reverse()` succeeds, keeps the size, keeps all unused tail
bits beyond `size` zero, and a second `reverse()` restores the array
exactly.  For `size = 0` the source panics (usize underflow in
`(self.size - 1) / 32`), see the counterexample. -/
theorem c8_reverse_reverse (a : BitArray)
    (hw : ∀ w ∈ a.bits, w < 2 ^ 32)
    (hcap : a.size ≤ 32 * a.bits.length)
    (htail : ∀ k < 32 * a.bits.length, a.size ≤ k → seqBit a.bits k = false)
    (hs : 1 ≤ a.size) :
    ∃ b, a.reverse = .ok b ∧ b.size = a.size ∧
      (∀ k, a.size ≤ k → b.get k = false) ∧
      b.reverse = .ok a := by
  have htail' : ∀ k, a.size ≤ k → seqBit a.bits k = false := by
    intro k hk
    by_cases hkl : k < 32 * a.bits.length
    · exact htail k hkl hk
    · exact seqBit_ge_len a.bits k (by omega)
  obtain ⟨b, hb, hbsz, hblen, hbw, hbchar⟩ := reverse_spec a hcap hs
  obtain ⟨c, hc, hcsz, hclen, hcw, hcchar⟩ :=
    reverse_spec b (by rw [hbsz, hblen]; exact hcap) (by omega)
  refine ⟨b, hb, hbsz, ?_, ?_⟩
  · intro k hk
    rw [BitArray.get_eq_seqBit, hbchar k, if_neg (by omega)]
  · rw [hc]
    suffices hca : c = a by rw [hca]
    have hseq : ∀ k, seqBit c.bits k = seqBit a.bits k := by
      intro k
      rw [hcchar k, hbsz]
      by_cases hk : k < a.size
      · rw [if_pos hk, hbchar, if_pos (by omega)]
        congr 1
        omega
      · rw [if_neg hk]
        exact (htail' k (by omega)).symm
    have hbits : c.bits = a.bits :=
      bits_eq_of_seqBit_eq c.bits a.bits (hclen.trans hblen) hcw hw hseq
    have hsize : c.size = a.size := hcsz.trans hbsz
    cases c
    cases a
    simp only [BitArray.mk.injEq]
    exact ⟨hbits, hsize⟩

/-- Witness for `c8_reverse_reverse`: the 5-bit array `10110` (LSB first)
reverses to `01101` and back. -/
theorem c8_reverse_reverse_witness :
    ∃ b, ({ bits := [22], size := 5 } : BitArray).reverse = .ok b ∧
      b.size = ({ bits := [22], size := 5 } : BitArray).size ∧
      (∀ k, ({ bits := [22], size := 5 } : BitArray).size ≤ k → b.get k = false) ∧
      b.reverse = .ok { bits := [22], size := 5 } :=
  c8_reverse_reverse { bits := [22], size := 5 } (by decide) (by decide)
    (by decide) (by decide)

/-- C8 counterexample: on the empty `BitArray` (as built by
`BitArray::new()`: no words, `size = 0`) `reverse()` panics -- the
`usize` expression `(self.size - 1) / 32` underflows -- so a double
`reverse()` does not restore the array. -/
theorem c8_counterexample :
    ({ bits := [], size := 0 } : BitArray).reverse = .error .panicked ∧
    (({ bits := [], size := 0 } : BitArray).reverse.bind BitArray.reverse ≠
      .ok { bits := [], size := 0 }) := ⟨rfl, by decide⟩

/-! ## ECIEncoderSet and MinimalECIInput (src/src/common/mod.rs lines 2856-3505)

A Rust `&str` is modelled as the list of its Unicode scalar values
(`List Nat`); `str::len()` is its UTF-8 byte count, while
`str::chars().nth(i)` indexes scalar values -- the distinction matters
because the source mixes the two.  Character sets are identified by their
name strings. -/

/-- Standard UTF-8 encoding of a Unicode scalar value. -/
def utf8Bytes (c : Nat) : List Nat :=
  if c < 0x80 then [c]
  else if c < 0x800 then [0xC0 ||| (c >>> 6), 0x80 ||| (c &&& 0x3F)]
  else if c < 0x10000 then
    [0xE0 ||| (c >>> 12), 0x80 ||| ((c >>> 6) &&& 0x3F), 0x80 ||| (c &&& 0x3F)]
  else
    [0xF0 ||| (c >>> 18), 0x80 ||| ((c >>> 12) &&& 0x3F), 0x80 ||| ((c >>> 6) &&& 0x3F),
      0x80 ||| (c &&& 0x3F)]

/-- Standard UTF-16BE encoding of a Unicode scalar value. -/
def utf16beBytes (c : Nat) : List Nat :=
  if c < 0x10000 then [c >>> 8, c &&& 0xFF]
  else
    [(0xD800 + ((c - 0x10000) >>> 10)) >>> 8, (0xD800 + ((c - 0x10000) >>> 10)) &&& 0xFF,
      (0xDC00 + ((c - 0x10000) &&& 0x3FF)) >>> 8, (0xDC00 + ((c - 0x10000) &&& 0x3FF)) &&& 0xFF]

/-- `str::len()`: the UTF-8 byte count of the string. -/
def strLen (s : List Nat) : Nat := (s.map (fun c => (utf8Bytes c).length)).sum

/-- `fnc1 as u8 as char`: two's-complement truncation of the `i16` to a
byte, read back as a character (`-1` becomes `U+00FF`). -/
def fnc1Char (fnc1 : Int) : Nat := (fnc1 % 256).toNat

/-- `c as i16` for a `char` scalar value: truncation to 16 bits, signed. -/
def charAsI16 (c : Nat) : Int :=
  if c % 65536 < 32768 then (c % 65536 : Nat) else (c % 65536 : Nat) - 65536

/-- Modelled from the spec: the strict single-character encoders of the
external `encoding` crate, identified by the crate's canonical charset
name (which is lowercase: `"iso-8859-1"`, `"utf-8"`, ..., as the
repository's own name matcher at mod.rs lines 2556-2585 records).
ISO-8859-1 encodes exactly the scalars below `0x100`; the two Unicode
charsets encode every scalar; every other single-byte charset in the
registry is modelled conservatively as encoding exactly ASCII.  The
claims below evaluate this predicate only on ASCII characters and on
`U+3042` (which no single-byte charset encodes), where this model agrees
with the crate. -/
def canEncodeChar (enc : String) (c : Nat) : Bool :=
  if enc = "iso-8859-1" then c < 0x100
  else if enc = "utf-8" || enc = "utf-16be" then c < 0x110000
  else c < 0x80

/-- `ECIEncoderSet::canEncode(c: i16, _)` stringifies the `i16` number and
encodes the decimal string (a port slip -- the Java original encoded the
character); decimal strings are ASCII, handled by `canEncodeChar`
characterwise. -/
def canEncodeI16 (enc : String) (c : Int) : Bool :=
  (toString c).toList.all (fun ch => canEncodeChar enc ch.toNat)

/-- `CharacterSetECI::getCharacterSetECIByName` (mod.rs lines 2632-2663). -/
def CharacterSetECI.getCharacterSetECIByName (name : String) : Option CharacterSetECI :=
  if name = "CP437" then some .Cp437
  else if name = "ISO-8859-1" then some .ISO8859_1
  else if name = "ISO-8859-2" then some .ISO8859_2
  else if name = "ISO-8859-3" then some .ISO8859_3
  else if name = "ISO-8859-4" then some .ISO8859_4
  else if name = "ISO-8859-5" then some .ISO8859_5
  else if name = "ISO-8859-6" then some .ISO8859_6
  else if name = "ISO-8859-7" then some .ISO8859_7
  else if name = "ISO-8859-8" then some .ISO8859_8
  else if name = "ISO-8859-9" then some .ISO8859_9
  else if name = "ISO-8859-10" then some .ISO8859_10
  else if name = "ISO-8859-11" then some .ISO8859_11
  else if name = "ISO-8859-13" then some .ISO8859_13
  else if name = "ISO-8859-14" then some .ISO8859_14
  else if name = "ISO-8859-15" then some .ISO8859_15
  else if name = "ISO-8859-16" then some .ISO8859_16
  else if name = "Shift_JIS" then some .SJIS
  else if name = "windows-1250" then some .Cp1250
  else if name = "windows-1251" then some .Cp1251
  else if name = "windows-1252" then some .Cp1252
  else if name = "windows-1256" then some .Cp1256
  else if name = "UTF-16BE" then some .UnicodeBigUnmarked
  else if name = "UTF-8" then some .UTF8
  else if name = "US-ASCII" then some .ASCII
  else if name = "Big5" then some .Big5
  else if name = "GB2312" then some .GB18030
  else if name = "EUC-KR" then some .EUC_KR
  else none

/-- The lookup label of `CharacterSetECI::getCharset` (mod.rs lines
2512-2543): the string it passes to
`encoding::label::encoding_from_whatwg_label`. -/
def CharacterSetECI.getCharsetName : CharacterSetECI → String
  | .Cp437 => "CP437"
  | .ISO8859_1 => "ISO-8859-1"
  | .ISO8859_2 => "ISO-8859-2"
  | .ISO8859_3 => "ISO-8859-3"
  | .ISO8859_4 => "ISO-8859-4"
  | .ISO8859_5 => "ISO-8859-5"
  | .ISO8859_6 => "ISO-8859-6"
  | .ISO8859_7 => "ISO-8859-7"
  | .ISO8859_8 => "ISO-8859-8"
  | .ISO8859_9 => "ISO-8859-9"
  | .ISO8859_10 => "ISO-8859-10"
  | .ISO8859_11 => "ISO-8859-11"
  | .ISO8859_13 => "ISO-8859-13"
  | .ISO8859_14 => "ISO-8859-14"
  | .ISO8859_15 => "ISO-8859-15"
  | .ISO8859_16 => "ISO-8859-16"
  | .SJIS => "Shift_JIS"
  | .Cp1250 => "windows-1250"
  | .Cp1251 => "windows-1251"
  | .Cp1252 => "windows-1252"
  | .Cp1256 => "windows-1256"
  | .UnicodeBigUnmarked => "UTF-16BE"
  | .UTF8 => "UTF-8"
  | .ASCII => "US-ASCII"
  | .Big5 => "Big5"
  | .GB18030 => "GB2312"
  | .EUC_KR => "EUC-KR"

/-- Modelled from the spec: the encoding the external `encoding` crate
returns for `getCharset`'s WHATWG label lookup, represented by the
crate's canonical name as `CharacterSetECI::getCharacterSetECI` (mod.rs
lines 2556-2585) sees it.  These canonical names are all lowercase --
which is why the constructor's `starts_with("UTF")` test below never
fires.  A few labels are WHATWG aliases of another encoding (noted
inline); none of those variants reaches `getCharset` through `ENCODERS`,
and the development only ever uses that the canonical names of the
`ENCODERS` entries differ from `"iso-8859-1"`, `"utf-8"` and
`"utf-16be"`.  `Cp437` has no WHATWG
encoding at all (the real `getCharset` would panic on its `unwrap()`);
it is filtered out of `ENCODERS` before `getCharset` runs, so its arm
here is unreachable. -/
def CharacterSetECI.encodingName : CharacterSetECI → String
  | .Cp437 => "cp437"
  | .ISO8859_1 => "iso-8859-1"
  | .ISO8859_2 => "iso-8859-2"
  | .ISO8859_3 => "iso-8859-3"
  | .ISO8859_4 => "iso-8859-4"
  | .ISO8859_5 => "iso-8859-5"
  | .ISO8859_6 => "iso-8859-6"
  | .ISO8859_7 => "iso-8859-7"
  | .ISO8859_8 => "iso-8859-8"
  | .ISO8859_9 => "windows-1254"
  | .ISO8859_10 => "iso-8859-10"
  | .ISO8859_11 => "windows-874"
  | .ISO8859_13 => "iso-8859-13"
  | .ISO8859_14 => "iso-8859-14"
  | .ISO8859_15 => "iso-8859-15"
  | .ISO8859_16 => "iso-8859-16"
  | .SJIS => "shift_jis"
  | .Cp1250 => "windows-1250"
  | .Cp1251 => "windows-1251"
  | .Cp1252 => "windows-1252"
  | .Cp1256 => "windows-1256"
  | .UnicodeBigUnmarked => "utf-16be"
  | .UTF8 => "utf-8"
  | .ASCII => "windows-1252"
  | .Big5 => "big5"
  | .GB18030 => "gbk"
  | .EUC_KR => "euc-kr"

/-- The `NAMES` array (mod.rs lines 2871-2892). -/
def NAMES : List String :=
  ["IBM437", "ISO-8859-2", "ISO-8859-3", "ISO-8859-4", "ISO-8859-5", "ISO-8859-6",
   "ISO-8859-7", "ISO-8859-8", "ISO-8859-9", "ISO-8859-10", "ISO-8859-11", "ISO-8859-13",
   "ISO-8859-14", "ISO-8859-15", "ISO-8859-16", "windows-1250", "windows-1251",
   "windows-1252", "windows-1256", "Shift_JIS"]

/-- The `ENCODERS` static (mod.rs lines 2856-2870): `getCharset` applied
to the `NAMES` entries that `getCharacterSetECIByName` recognizes
("IBM437" is not recognized and is silently dropped), each encoding
represented by its canonical crate name. -/
def ENCODERS : List String :=
  NAMES.filterMap (fun name =>
    (CharacterSetECI.getCharacterSetECIByName name).map CharacterSetECI.encodingName)

example : ENCODERS.length = 19 := by decide

/-- The inner `for i in 0..ENCODERS.len()` loop of `ECIEncoderSet::new`
(mod.rs lines 2953-2970).  The source shadows the outer character index
`i`, so the character tested against `ENCODERS[i]` is
`stringToEncode.chars().nth(i)` for the encoder index `i` -- and the
`unwrap()` panics as soon as `i` reaches the character count of the
input. -/
def findEncoderLoop (input : List Nat) : Nat → List String → Except RtError (Option String)
  | _, [] => .ok none
  | j, enc :: rest =>
    match input.get? j with
    | none => .error .panicked
    | some c =>
      if canEncodeChar enc c then .ok (some enc)
      else findEncoderLoop input (j + 1) rest

/-- The outer `for i in 0..stringToEncode.len()` loop of
`ECIEncoderSet::new` (mod.rs lines 2936-2978).  `len` is the UTF-8 byte
count, but `chars().nth(i)` indexes characters, so the `unwrap()` panics
on any input containing a non-ASCII character. -/
def encoderSetLoop (input : List Nat) (f1c : Nat) :
    Nat → Nat → List String → Bool → Except RtError (List String × Bool)
  | _, 0, needed, needUni => .ok (needed, needUni)
  | i, rem + 1, needed, needUni =>
    match input.get? i with
    | none => .error .panicked
    | some c =>
      if needed.any (fun e => c == f1c || canEncodeChar e c) then
        encoderSetLoop input f1c (i + 1) rem needed needUni
      else
        match findEncoderLoop input 0 ENCODERS with
        | .error e => .error e
        | .ok (some enc) => encoderSetLoop input f1c (i + 1) rem (needed ++ [enc]) needUni
        | .ok none => encoderSetLoop input f1c (i + 1) rem needed true

/-- `priorityCharset.name().starts_with("UTF")`, by inspecting the first
three characters of the name.  `starts_with` is case-sensitive and the
`encoding` crate's canonical names are lowercase (`"utf-8"`,
`"utf-16be"`: the repository's own matcher at mod.rs lines 2556-2585
matches exactly those), so this is `false` for the name of every real
priority charset -- the `needUnicodeEncoder` initialization is dead. -/
def nameStartsWithUTF (p : String) : Bool :=
  match p.toList with
  | 'U' :: 'T' :: 'F' :: _ => true
  | _ => false

/-- `ECIEncoderSet::new` without its final `assert_eq!` (mod.rs lines
2923-3010): the encoder list and the priority index it computes.  The Rust
signature takes a non-optional `EncodingRef`; `none` models the Java
`null` / spec "no priority charset", for which `needUnicodeEncoder` starts
false and no priority lookup happens. -/
def eciEncoderSetBuild (input : List Nat) (priorityCharset : Option String) (fnc1 : Int) :
    Except RtError (List String × Nat) :=
  let needUni0 := match priorityCharset with
    | some p => nameStartsWithUTF p
    | none => false
  match encoderSetLoop input (fnc1Char fnc1) 0 (strLen input) ["iso-8859-1"] needUni0 with
  | .error e => .error e
  | .ok (needed, needUni) =>
    let encoders := if needed.length == 1 && !needUni then ["iso-8859-1"]
      else "utf-8" :: "utf-16be" :: needed
    let pIdx := match priorityCharset with
      | some p => (encoders.findIdx? (fun e => e = p)).getD 0
      | none => 0
    .ok (encoders, pIdx)

/-- `ECIEncoderSet::new` (mod.rs lines 2923-3016): the construction above
followed by `assert_eq!(encoders[0].name(), ISO_8859_1.name())`, which
panics when the assert fails. -/
def eciEncoderSetNew (input : List Nat) (priorityCharset : Option String) (fnc1 : Int) :
    Except RtError (List String × Nat) :=
  match eciEncoderSetBuild input priorityCharset fnc1 with
  | .error e => .error e
  | .ok (encoders, pIdx) =>
    if encoders.get? 0 = some "iso-8859-1" then .ok (encoders, pIdx)
    else .error .panicked

example : eciEncoderSetNew [0x41] none (-1) = .ok (["iso-8859-1"], 0) := by decide

example : eciEncoderSetNew [0x41] (some "utf-8") (-1) = .ok (["iso-8859-1"], 0) := by decide

example : eciEncoderSetNew [0x41, 0x3042] none (-1) = .error .panicked := by decide

/-- `ECIEncoderSet::encode_char` (mod.rs lines 3053-3059): strict
encoding with `assert!(enc_data.is_ok())` -- a panic when the charset
cannot encode the character. -/
def encodeCharBytes (enc : String) (c : Nat) : Except RtError (List Nat) :=
  if canEncodeChar enc c then
    .ok (if enc = "utf-8" then utf8Bytes c
      else if enc = "utf-16be" then utf16beBytes c
      else [c % 256])
  else .error .panicked

/-- `CharacterSetECI::getCharacterSetECI` (mod.rs lines 2551-2588):
recognizes a crate encoding by its canonical (WHATWG) name -- note the
lowercase arms, in contrast to `getCharacterSetECIByName`'s uppercase
registry labels. -/
def CharacterSetECI.getCharacterSetECI (name : String) : Option CharacterSetECI :=
  if name = "CP437" then some .Cp437
  else if name = "iso-8859-1" then some .ISO8859_1
  else if name = "iso-8859-2" then some .ISO8859_2
  else if name = "iso-8859-3" then some .ISO8859_3
  else if name = "iso-8859-4" then some .ISO8859_4
  else if name = "iso-8859-5" then some .ISO8859_5
  else if name = "iso-8859-6" then some .ISO8859_6
  else if name = "iso-8859-7" then some .ISO8859_7
  else if name = "iso-8859-8" then some .ISO8859_8
  else if name = "iso-8859-9" then some .ISO8859_9
  else if name = "iso-8859-10" then some .ISO8859_10
  else if name = "iso-8859-11" then some .ISO8859_11
  else if name = "iso-8859-13" then some .ISO8859_13
  else if name = "iso-8859-14" then some .ISO8859_14
  else if name = "iso-8859-15" then some .ISO8859_15
  else if name = "iso-8859-16" then some .ISO8859_16
  else if name = "shift_jis" then some .SJIS
  else if name = "windows-1250" then some .Cp1250
  else if name = "windows-1251" then some .Cp1251
  else if name = "windows-1252" then some .Cp1252
  else if name = "windows-1256" then some .Cp1256
  else if name = "utf-16be" then some .UnicodeBigUnmarked
  else if name = "utf-8" then some .UTF8
  else if name = "us-ascii" then some .ASCII
  else if name = "big5" then some .Big5
  else if name = "gb2312" then some .GB18030
  else if name = "euc-kr" then some .EUC_KR
  else none

/-- `ECIEncoderSet::getECIValue(encoderIndex)` (mod.rs lines 3032-3036):
`getValue(getCharacterSetECI(charset).unwrap())`, keyed here by the
canonical charset name; the `unwrap()` panics on an unrecognized
charset. -/
def getECIValueByName (enc : String) : Except RtError Nat :=
  match CharacterSetECI.getCharacterSetECI enc with
  | some e => .ok e.getValue
  | none => .error .panicked

/-- `struct InputEdge` (mod.rs lines 3429-3434); the `Rc` chain of
predecessors becomes a nested inductive. -/
inductive InputEdge where
  | mk (c : Int) (encoderIndex : Nat) (previous : Option InputEdge) (cachedTotalSize : Nat)

def InputEdge.c : InputEdge → Int
  | .mk c _ _ _ => c

def InputEdge.encoderIndex : InputEdge → Nat
  | .mk _ e _ _ => e

def InputEdge.previous : InputEdge → Option InputEdge
  | .mk _ _ p _ => p

def InputEdge.cachedTotalSize : InputEdge → Nat
  | .mk _ _ _ s => s

/-- `InputEdge::new` (mod.rs lines 3436-3500).  The edge cost is the
encoded byte count of `c as u8 as char`, plus `COST_PER_ECI = 3` when the
encoder changes (the first edge pays the switch unless it uses encoder
0), plus the predecessor's cached total. -/
def inputEdgeNew (c : Int) (encoders : List String) (encoderIndex : Nat)
    (previous : Option InputEdge) (fnc1 : Int) : Except RtError InputEdge :=
  let sizeE : Except RtError Nat :=
    if c = 1000 then .ok 1
    else match idx encoders encoderIndex with
      | .error e => .error e
      | .ok enc => match encodeCharBytes enc (c % 256).toNat with
        | .error e => .error e
        | .ok bs => .ok bs.length
  match sizeE with
  | .error e => .error e
  | .ok size0 =>
    let previousEncoderIndex := match previous with
      | none => 0
      | some p => p.encoderIndex
    let size1 := if previousEncoderIndex ≠ encoderIndex then size0 + 3 else size0
    let size2 := match previous with
      | none => size1
      | some p => size1 + p.cachedTotalSize
    .ok (.mk (if c = fnc1 then 1000 else c) encoderIndex previous size2)

/-- `MinimalECIInput::addEdge` (mod.rs lines 3304-3314): keep the cheaper
of competing arrivals at `(to, encoderIndex)`. -/
def addEdge (edges : List (List (Option InputEdge))) (to0 : Nat) (edge : InputEdge) :
    List (List (Option InputEdge)) :=
  let row := edges.getD to0 []
  match row.getD edge.encoderIndex none with
  | none => edges.set to0 (row.set edge.encoderIndex (some edge))
  | some old =>
    if old.cachedTotalSize > edge.cachedTotalSize then
      edges.set to0 (row.set edge.encoderIndex (some edge))
    else edges

/-- The `for i in start..end` loop of `MinimalECIInput::addEdges`. -/
def addEdgesLoop (ch : Int) (encoders : List String) (from0 : Nat)
    (previous : Option InputEdge) (fnc1 : Int) :
    Nat → Nat → List (List (Option InputEdge)) → Except RtError (List (List (Option InputEdge)))
  | _, 0, edges => .ok edges
  | i, rem + 1, edges =>
    if ch = fnc1 || canEncodeI16 (encoders.getD i "") ch then
      match inputEdgeNew ch encoders i previous fnc1 with
      | .error e => .error e
      | .ok edge => addEdgesLoop ch encoders from0 previous fnc1 (i + 1) rem
          (addEdge edges (from0 + 1) edge)
    else addEdgesLoop ch encoders from0 previous fnc1 (i + 1) rem edges

/-- `MinimalECIInput::addEdges` (mod.rs lines 3316-3345).  Note
`encoderSet.getPriorityEncoderIndex() >= 0` is a tautology on `usize`, so
the priority short-circuit depends only on the `canEncode` test. -/
def addEdges (input : List Nat) (encoders : List String) (pIdx : Nat)
    (edges : List (List (Option InputEdge))) (from0 : Nat) (previous : Option InputEdge)
    (fnc1 : Int) : Except RtError (List (List (Option InputEdge))) :=
  match input.get? from0 with
  | none => .error .panicked
  | some c0 =>
    let ch := charAsI16 c0
    if ch = fnc1 || canEncodeI16 (encoders.getD pIdx "") ch then
      addEdgesLoop ch encoders from0 previous fnc1 pIdx 1 edges
    else
      addEdgesLoop ch encoders from0 previous fnc1 0 encoders.length edges

/-- The inner relaxation loop over `j` at column `i` of
`MinimalECIInput::encodeMinimally`. -/
def relaxLoop (input : List Nat) (encoders : List String) (pIdx : Nat)
    (inputLength i : Nat) (fnc1 : Int) :
    Nat → List (List (Option InputEdge)) → Except RtError (List (List (Option InputEdge)))
  | 0, edges => .ok edges
  | rem + 1, edges =>
    let j := encoders.length - (rem + 1)
    if ((edges.getD i []).getD j none).isSome && i < inputLength then
      match addEdges input encoders pIdx edges i ((edges.getD i []).getD j none) fnc1 with
      | .error e => .error e
      | .ok edges2 => relaxLoop input encoders pIdx inputLength i fnc1 rem edges2
    else relaxLoop input encoders pIdx inputLength i fnc1 rem edges

/-- The main `for i in 0..=inputLength` loop of `encodeMinimally`: relax
column `i`, then clear column `i - 1`; the clear underflows `usize` on
the very first iteration (`i = 0`), since the source dropped the Java
`for (int i = 1; ...)` lower bound. -/
def encodeMinimallyLoop (input : List Nat) (encoders : List String) (pIdx : Nat)
    (inputLength : Nat) (fnc1 : Int) :
    Nat → Nat → List (List (Option InputEdge)) → Except RtError (List (List (Option InputEdge)))
  | _, 0, edges => .ok edges
  | i, rem + 1, edges =>
    match relaxLoop input encoders pIdx inputLength i fnc1 encoders.length edges with
    | .error e => .error e
    | .ok edges2 =>
      match usizeSub i 1 with
      | .error e => .error e
      | .ok im1 =>
        encodeMinimallyLoop input encoders pIdx inputLength fnc1 (i + 1) rem
          (edges2.set im1 (List.replicate encoders.length none))

/-- The minimum-cost terminal selection of `encodeMinimally`
(mod.rs lines 3373-3387), `panic!` when no terminal vertex exists. -/
def selectMinimalEdge (lastRow : List (Option InputEdge)) : Except RtError InputEdge :=
  let best := lastRow.foldl
    (fun acc cell => match cell with
      | none => acc
      | some edge => match acc with
        | none => some edge
        | some b => if edge.cachedTotalSize < b.cachedTotalSize then some edge else acc)
    none
  match best with
  | none => .error .panicked
  | some e => .ok e

/-- The back-trace loop of `encodeMinimally` (mod.rs lines 3388-3419).
For a non-FNC1 edge the byte-emitting inner loop runs its body once with
`i = bytes.len() - 1` and then sets `i = -1` (instead of decrementing), so
only the final byte of a multi-byte encoding is spliced in. -/
def backtrace (encoders : List String) : Option InputEdge → List Nat →
    Except RtError (List Nat)
  | none, intsAL => .ok intsAL
  | some (.mk c encoderIndex previous _), intsAL =>
    let bytesE : Except RtError (List Nat) :=
      if c = 1000 then .ok (1000 :: intsAL)
      else match idx encoders encoderIndex with
        | .error e => .error e
        | .ok enc => match encodeCharBytes enc (c % 256).toNat with
          | .error e => .error e
          | .ok bs => match bs.getLast? with
            | none => .ok intsAL
            | some b => .ok (b :: intsAL)
    match bytesE with
    | .error e => .error e
    | .ok ints2 =>
      let previousEncoderIndex := match previous with
        | none => 0
        | some p => p.encoderIndex
      if previousEncoderIndex ≠ encoderIndex then
        match idx encoders encoderIndex with
        | .error e => .error e
        | .ok enc => match getECIValueByName enc with
          | .error e => .error e
          | .ok v => backtrace encoders previous ((256 + v) :: ints2)
      else backtrace encoders previous ints2

/-- `MinimalECIInput::encodeMinimally` (mod.rs lines 3347-3426). -/
def encodeMinimally (input : List Nat) (encoders : List String) (pIdx : Nat) (fnc1 : Int) :
    Except RtError (List Nat) :=
  let inputLength := strLen input
  let edges0 : List (List (Option InputEdge)) :=
    List.replicate (inputLength + 1) (List.replicate encoders.length none)
  match addEdges input encoders pIdx edges0 0 none fnc1 with
  | .error e => .error e
  | .ok edges1 =>
    match encodeMinimallyLoop input encoders pIdx inputLength fnc1 0 (inputLength + 1) edges1 with
    | .error e => .error e
    | .ok edges2 =>
      match selectMinimalEdge (edges2.getD inputLength []) with
      | .error e => .error e
      | .ok minimalEdge => backtrace encoders (some minimalEdge) []

/-- The `encoderSet.len() == 1` shortcut loop of `MinimalECIInput::new`
(mod.rs lines 3263-3271): byte-length-many iterations of
`chars().nth(i).unwrap()`, so it panics on non-ASCII input here too. -/
def shortcutLoop (input : List Nat) (fnc1 : Int) :
    Nat → Nat → List Nat → Except RtError (List Nat)
  | _, 0, acc => .ok acc.reverse
  | i, rem + 1, acc =>
    match input.get? i with
    | none => .error .panicked
    | some c =>
      shortcutLoop input fnc1 (i + 1) rem
        ((if charAsI16 c = fnc1 then 1000 else c % 65536) :: acc)

/-- `struct MinimalECIInput { bytes: Vec<u16>, fnc1: i16 }`. -/
structure MinimalECIInput where
  bytes : List Nat
  fnc1 : Int
deriving Repr, DecidableEq

/-- `MinimalECIInput::new` (mod.rs lines 3261-3280). -/
def minimalEciInputNew (input : List Nat) (priorityCharset : Option String) (fnc1 : Int) :
    Except RtError MinimalECIInput :=
  match eciEncoderSetNew input priorityCharset fnc1 with
  | .error e => .error e
  | .ok (encoders, pIdx) =>
    if encoders.length = 1 then
      match shortcutLoop input fnc1 0 (strLen input) [] with
      | .error e => .error e
      | .ok bytes => .ok { bytes := bytes, fnc1 := fnc1 }
    else
      match encodeMinimally input encoders pIdx fnc1 with
      | .error e => .error e
      | .ok bytes => .ok { bytes := bytes, fnc1 := fnc1 }

/-- `MinimalECIInput::length`. -/
def MinimalECIInput.length (m : MinimalECIInput) : Nat := m.bytes.length

/-- `MinimalECIInput::isECI(index)` (mod.rs lines 3198-3203): any token
above 255 up to `u16::MAX` counts as an ECI -- including the FNC1
sentinel 1000. -/
def MinimalECIInput.isECI (m : MinimalECIInput) (index : Nat) : Except RtError Bool :=
  if index ≥ m.length then .error .outOfBounds
  else .ok (decide (m.bytes.getD index 0 > 255) && decide (m.bytes.getD index 0 ≤ 65535))

/-- `MinimalECIInput::isFNC1(index)` (mod.rs lines 3297-3302). -/
def MinimalECIInput.isFNC1 (m : MinimalECIInput) (index : Nat) : Except RtError Bool :=
  if index ≥ m.length then .error .outOfBounds
  else .ok (decide (m.bytes.getD index 0 = 1000))

/-- `MinimalECIInput::charAt(index)` (mod.rs lines 3132-3147): rejects
out-of-range indices, then any position `isECI` holds for, then answers
the FNC1 character or the byte as a character. -/
def MinimalECIInput.charAt (m : MinimalECIInput) (index : Nat) : Except RtError Nat :=
  if index ≥ m.length then .error .outOfBounds
  else match m.isECI index with
    | .error e => .error e
    | .ok true => .error .invalidArg
    | .ok false =>
      match m.isFNC1 index with
      | .error e => .error e
      | .ok true => .ok (fnc1Char m.fnc1)
      | .ok false => .ok (m.bytes.getD index 0 % 256)

example : minimalEciInputNew [97] none 97 = .ok { bytes := [1000], fnc1 := 97 } := by decide

example : minimalEciInputNew [0x41, 0x3042] none (-1) = .error .panicked := by decide

/-- C1: for the input "Aあ" with no priority charset and `fnc1 = -1`,
`MinimalECIInput::new` panics instead of producing the token sequence
`[0x41, 256 + 26, 0xE3, 0x81, 0x82]`: `ECIEncoderSet::new` iterates the
UTF-8 byte length 4 of the input while indexing `chars().nth(i)`, whose
`unwrap()` fails at `i = 2` (the string has only two characters).  Even
with that fixed, `encodeMinimally`'s cleanup pass indexes `edges[0 - 1]`
on its first iteration, a `usize` underflow. -/
theorem c1_minimalEciInput_on_A_hiragana :
    minimalEciInputNew [0x41, 0x3042] none (-1) = .error .panicked ∧
    minimalEciInputNew [0x41, 0x3042] none (-1) ≠
      .ok { bytes := [0x41, 256 + 26, 0xE3, 0x81, 0x82], fnc1 := -1 } := by
  exact ⟨by decide, by decide⟩

/-- Any encoder list `eciEncoderSetBuild` returns is either the plain
`[iso-8859-1]` of the shortcut branch or starts with the `utf-8` pushed
first by the extension branch. -/
theorem eciEncoderSetBuild_ok_shape (input : List Nat) (priority : Option String)
    (fnc1 : Int) (encoders : List String) (pIdx : Nat)
    (h : eciEncoderSetBuild input priority fnc1 = .ok (encoders, pIdx)) :
    encoders = ["iso-8859-1"] ∨ encoders.get? 0 = some "utf-8" := by
  simp only [eciEncoderSetBuild] at h
  split at h
  · exact absurd h (by simp)
  · simp only [Except.ok.injEq, Prod.mk.injEq] at h
    obtain ⟨he, _⟩ := h
    split at he
    · left; exact he.symm
    · right; rw [← he]; rfl

/-- C3: the UTF-8/UTF-16BE extension of the encoder list promised by the
claim (and by the struct's own doc-comment invariant) never happens:
whenever `ECIEncoderSet::new` returns at all, its encoder list is
exactly `[ISO-8859-1]`, and for every input containing a character the
single-byte encoders cannot cover -- exactly when the claim says UTF-8
and UTF-16BE are appended as the last two entries -- the constructor
panics before any list is produced, because the outer loop runs
`str::len()` (byte count) iterations of `chars().nth(i).unwrap()`
(shown on the inputs "あ" and "Aあ").  The branch that would extend the
list pushes UTF-8 and UTF-16BE first, contradicting the documented
invariant, but it is dead code: the crate's charset names are lowercase,
so `priorityCharset.name().starts_with("UTF")` is never true, and
non-ASCII input panics before `needUnicodeEncoder` can be set. -/
theorem c3_unicode_encoders_never_appended :
    eciEncoderSetNew [0x3042] none (-1) = .error .panicked ∧
    eciEncoderSetNew [0x41, 0x3042] none (-1) = .error .panicked ∧
    ∀ (input : List Nat) (priority : Option String) (fnc1 : Int)
      (encs : List String) (pIdx : Nat),
      eciEncoderSetNew input priority fnc1 = .ok (encs, pIdx) →
      encs = ["iso-8859-1"] := by
  refine ⟨by decide, by decide, ?_⟩
  intro input priority fnc1 encs pIdx h
  unfold eciEncoderSetNew at h
  split at h
  · exact absurd h (by simp)
  · rename_i encoders pIdx0 hb
    split at h
    · rename_i hc
      simp only [Except.ok.injEq, Prod.mk.injEq] at h
      rcases eciEncoderSetBuild_ok_shape input priority fnc1 encoders pIdx0 hb with
        hs | hs
      · rw [← h.1, hs]
      · rw [hs] at hc
        exact absurd hc (by decide)
    · exact absurd h (by simp)

/-- Witness for `c3_unicode_encoders_never_appended`: the real call
`ECIEncoderSet::new("A", UTF-8 priority, -1)` -- the crate's UTF-8
encoding has the lowercase name `"utf-8"` -- returns the one-element
list `[ISO-8859-1]` without panicking, and the theorem's universal part
applies to it. -/
theorem c3_unicode_encoders_never_appended_witness :
    eciEncoderSetNew [0x41] (some "utf-8") (-1) = .ok (["iso-8859-1"], 0) ∧
    (["iso-8859-1"] : List String) = ["iso-8859-1"] :=
  ⟨by decide, c3_unicode_encoders_never_appended.2.2 [0x41] (some "utf-8") (-1)
    ["iso-8859-1"] 0 (by decide)⟩

/-- C4: on the `MinimalECIInput` produced from input "a" with
`fnc1 = 'a'` (token stream `[1000]`), the port's `isECI` upper bound
`u16::MAX` (instead of 999) makes the FNC1 sentinel 1000 count as an ECI:
`isECI(0)` is true and `charAt(0)` fails, although `isFNC1(0)` holds --
the FNC1 branch inside `charAt` is unreachable. -/
theorem c4_fnc1_counted_as_eci :
    minimalEciInputNew [97] none 97 = .ok { bytes := [1000], fnc1 := 97 } ∧
    ({ bytes := [1000], fnc1 := 97 } : MinimalECIInput).isECI 0 = .ok true ∧
    ({ bytes := [1000], fnc1 := 97 } : MinimalECIInput).isFNC1 0 = .ok true ∧
    ({ bytes := [1000], fnc1 := 97 } : MinimalECIInput).charAt 0 = .error .invalidArg := by
  exact ⟨by decide, by decide, by decide, by decide⟩

/-! ## GlobalHistogramBinarizer (src/src/common/mod.rs lines 3564-3772)

`LUMINANCE_BITS = 5`, so 32 buckets and a shift of 3. -/

/-- Modelled from the spec: a `LuminanceSource` (sec. 6) provides its
dimensions, row views and the full row-major luminance matrix. -/
structure LumSource where
  width : Nat
  height : Nat
  data : List Nat

/-- `getRow(y)`: a view of row `y`, `width` bytes long. -/
def LumSource.getRow (src : LumSource) (y : Nat) : List Nat :=
  (src.data.drop (y * src.width)).take src.width

/-- `BitMatrix` as far as `getBlackMatrix` needs it: the dimensions and
the set of set positions.  (The row-packed word representation of the
source's BitMatrix is not modelled here; the claims on the binarizer
never inspect it.) -/
structure BitMatrix where
  width : Nat
  height : Nat
  setBits : List (Nat × Nat)
deriving Repr, DecidableEq

/-- `BitMatrix::new(width, height)`: rejects zero dimensions with
InvalidArgument. -/
def bitMatrixNew (width height : Nat) : Except RtError BitMatrix :=
  if width < 1 ∨ height < 1 then .error .invalidArg
  else .ok { width := width, height := height, setBits := [] }

/-- `localBuckets[pixel >> LUMINANCE_SHIFT] += 1`, panicking on an
out-of-range bucket index.  The `u32` counter itself is modelled as `Nat`:
it cannot overflow below `2 ^ 32` sampled pixels. -/
def bumpBucket (buckets : List Nat) (i : Nat) : Except RtError (List Nat) :=
  if i < buckets.length then .ok (buckets.set i (buckets.getD i 0 + 1))
  else .error .panicked

/-- The `while x < right` histogram loop over one sampled row
(mod.rs lines 3640-3646), `rem` iterations starting at `x`. -/
def histLoop (row : List Nat) : Nat → Nat → List Nat → Except RtError (List Nat)
  | _, 0, buckets => .ok buckets
  | x, rem + 1, buckets =>
    match row.get? x with
    | none => .error .panicked
    | some pixel =>
      match bumpBucket buckets (pixel >>> 3) with
      | .error e => .error e
      | .ok b2 => histLoop row (x + 1) rem b2

/-- One sampled row of the `for y in 1..5` loop of `getBlackMatrix`. -/
def histogramRow (src : LumSource) (y : Nat) (buckets : List Nat) :
    Except RtError (List Nat) :=
  histLoop (src.getRow (src.height * y / 5)) (src.width / 5)
    (src.width * 4 / 5 - src.width / 5) buckets

/-- The `for y in 1..5` sampled-row loop of `getBlackMatrix`
(mod.rs lines 3635-3647), unrolled. -/
def histogram4 (src : LumSource) (buckets : List Nat) : Except RtError (List Nat) :=
  match histogramRow src 1 buckets with
  | .error e => .error e
  | .ok b1 =>
    match histogramRow src 2 b1 with
    | .error e => .error e
    | .ok b2 =>
      match histogramRow src 3 b2 with
      | .error e => .error e
      | .ok b3 =>
        match histogramRow src 4 b3 with
        | .error e => .error e
        | .ok b4 => .ok b4

/-- The tallest-peak scan of `estimateBlackPoint` (mod.rs lines
3710-3723); state `(firstPeak, firstPeakSize, maxBucketCount)`. -/
def firstPeakLoop : List Nat → Nat → (Nat × Nat × Nat) → (Nat × Nat × Nat)
  | [], _, st => st
  | b :: rest, x, (fp, fps, mbc) =>
    firstPeakLoop rest (x + 1)
      ((if b > fps then x else fp), (if b > fps then b else fps), (if b > mbc then b else mbc))

/-- Checked `u32` multiplication (overflow panics in a debug build). -/
def u32Mul (a b : Nat) : Except RtError Nat :=
  if a * b < 2 ^ 32 then .ok (a * b) else .error .panicked

/-- The second-peak scan of `estimateBlackPoint` (mod.rs lines
3726-3737): `let distanceToBiggest = x - firstPeak;` subtracts `usize`
values and underflows (panics) for every `x < firstPeak`; the two `as
u32` casts truncate mod `2 ^ 32`. -/
def secondPeakLoop : List Nat → Nat → Nat → (Nat × Nat) → Except RtError (Nat × Nat)
  | [], _, _, st => .ok st
  | b :: rest, x, firstPeak, (sp, sps) =>
    match usizeSub x firstPeak with
    | .error e => .error e
    | .ok d =>
      match u32Mul b (d % 2 ^ 32) with
      | .error e => .error e
      | .ok m1 =>
        match u32Mul m1 (d % 2 ^ 32) with
        | .error e => .error e
        | .ok score =>
          secondPeakLoop rest (x + 1) firstPeak (if score > sps then (x, score) else (sp, sps))

/-- `n as i32`: wrap to 32 bits, then read as two's complement. -/
def i32Cast (n : Nat) : Int :=
  if n % 2 ^ 32 < 2 ^ 31 then ((n % 2 ^ 32 : Nat) : Int) else ((n % 2 ^ 32 : Nat) : Int) - 2 ^ 32

/-- The valley search of `estimateBlackPoint` (mod.rs lines 3754-3768):
`x` walks down from `secondPeak` while `x > firstPeak` (encoded by the
iteration count `fuel = x - firstPeak`). -/
def valleyLoop (buckets : List Nat) (firstPeak secondPeak maxBucketCount : Nat) :
    Nat → Nat → Nat → Int → Nat
  | _, 0, bestValley, _ => bestValley
  | x, fuel + 1, bestValley, bestValleyScore =>
    let fromFirst := x - firstPeak
    let score := fromFirst * fromFirst * (secondPeak - x) * (maxBucketCount - buckets.getD x 0)
    if i32Cast score > bestValleyScore then
      valleyLoop buckets firstPeak secondPeak maxBucketCount (x - 1) fuel x (i32Cast score)
    else
      valleyLoop buckets firstPeak secondPeak maxBucketCount (x - 1) fuel bestValley
        bestValleyScore

/-- `GlobalHistogramBinarizer::estimateBlackPoint` (mod.rs lines
3708-3771). -/
def estimateBlackPoint (buckets : List Nat) : Except RtError Nat :=
  let numBuckets := buckets.length
  let (firstPeak, firstPeakSize, maxBucketCount) := firstPeakLoop buckets 0 (0, 0, 0)
  match secondPeakLoop buckets 0 firstPeak (0, 0) with
  | .error e => .error e
  | .ok (secondPeak, _) =>
    let fp := if firstPeak > secondPeak then secondPeak else firstPeak
    let sp := if firstPeak > secondPeak then firstPeak else secondPeak
    if sp - fp ≤ numBuckets / 16 then .error .notFound
    else
      let _ := firstPeakSize
      .ok ((valleyLoop buckets fp sp maxBucketCount sp (sp - fp) (sp - 1) (-1)) <<< 3)

/-- The final thresholding pass of `getBlackMatrix` (mod.rs lines
3653-3664): set `(x, y)` iff the pixel is below the black point. -/
def thresholdFill (src : LumSource) (blackPoint : Nat) : List (Nat × Nat) :=
  ((List.range src.height).map (fun y =>
    (List.range src.width).filterMap (fun x =>
      if (src.data.getD (y * src.width + x) 0 &&& 0xFF) < blackPoint then some (x, y)
      else none))).join

/-- `GlobalHistogramBinarizer::getBlackMatrix` (mod.rs lines 3625-3667). -/
def getBlackMatrix (src : LumSource) : Except RtError BitMatrix :=
  match bitMatrixNew src.width src.height with
  | .error e => .error e
  | .ok matrix =>
    match histogram4 src (List.replicate 32 0) with
    | .error e => .error e
    | .ok localBuckets =>
      match estimateBlackPoint localBuckets with
      | .error e => .error e
      | .ok blackPoint =>
        .ok { matrix with setBits := thresholdFill src blackPoint }

/-- The uniform-luminance source: every pixel has value `v`. -/
def uniformSource (w h v : Nat) : LumSource := { width := w, height := h, data := List.replicate (w * h) v }

example : getBlackMatrix (uniformSource 5 5 255) = .error .panicked := by decide

example : getBlackMatrix (uniformSource 5 5 0) = .error .notFound := by decide

theorem getRow_uniform (w h v r : Nat) (hr : r < h) :
    (uniformSource w h v).getRow r = List.replicate w v := by
  unfold uniformSource LumSource.getRow
  simp only [List.drop_replicate, List.take_replicate]
  congr 1
  have key : r * w + w ≤ w * h := by
    have h1 : (r + 1) * w ≤ h * w := Nat.mul_le_mul_right w (by omega)
    calc r * w + w = (r + 1) * w := by ring
      _ ≤ h * w := h1
      _ = w * h := Nat.mul_comm h w
  omega

theorem hist_uniform (w v : Nat) (hv : v < 8) :
    ∀ rem x N, x + rem ≤ w →
    histLoop (List.replicate w v) x rem (N :: List.replicate 31 0) =
      .ok ((N + rem) :: List.replicate 31 0) := by
  intro rem
  induction rem with
  | zero => intro x N _; rfl
  | succ rem ih =>
    intro x N hxr
    have hget : (List.replicate w v).get? x = some v := by
      rw [List.get?_eq_getElem?, List.getElem?_replicate, if_pos (by omega)]
    have hshift : v >>> 3 = 0 := by
      rw [Nat.shiftRight_eq_div_pow]
      omega
    have hbump : bumpBucket (N :: List.replicate 31 0) 0 = .ok ((N + 1) :: List.replicate 31 0) := by
      unfold bumpBucket
      rw [if_pos (by simp)]
      rfl
    simp only [histLoop, hget, hshift, hbump]
    rw [ih (x + 1) (N + 1) (by omega)]
    congr 2
    omega

theorem histogram4_uniform (w h v : Nat) (hh : 1 ≤ h) (hv : v < 8) :
    histogram4 (uniformSource w h v) (List.replicate 32 0) =
      .ok ((4 * (w * 4 / 5 - w / 5)) :: List.replicate 31 0) := by
  have hrow : ∀ y, 1 ≤ y → y ≤ 4 → h * y / 5 < h := by
    intro y h1 h4
    have : h * y ≤ h * 4 := Nat.mul_le_mul_left h h4
    omega
  have hbounds : w / 5 + (w * 4 / 5 - w / 5) ≤ w := by omega
  have step : ∀ y N, 1 ≤ y → y ≤ 4 →
      histogramRow (uniformSource w h v) y (N :: List.replicate 31 0) =
        .ok ((N + (w * 4 / 5 - w / 5)) :: List.replicate 31 0) := by
    intro y N h1 h4
    unfold histogramRow
    rw [show (uniformSource w h v).height = h from rfl,
      show (uniformSource w h v).width = w from rfl,
      getRow_uniform w h v _ (hrow y h1 h4)]
    exact hist_uniform w v hv _ _ N hbounds
  have hinit : (List.replicate 32 0 : List Nat) = 0 :: List.replicate 31 0 := rfl
  set r := w * 4 / 5 - w / 5 with hr
  have s1 := step 1 0 (by omega) (by omega)
  have s2 := step 2 (0 + r) (by omega) (by omega)
  have s3 := step 3 (0 + r + r) (by omega) (by omega)
  have s4 := step 4 (0 + r + r + r) (by omega) (by omega)
  unfold histogram4
  rw [hinit]
  simp only [s1, s2, s3, s4]
  congr 2
  omega

theorem firstPeakLoop_replicate_zero :
    ∀ k x fp fps mbc, firstPeakLoop (List.replicate k 0) x (fp, fps, mbc) = (fp, fps, mbc) := by
  intro k
  induction k with
  | zero => intro x fp fps mbc; rfl
  | succ k ih =>
    intro x fp fps mbc
    show firstPeakLoop (0 :: List.replicate k 0) x (fp, fps, mbc) = (fp, fps, mbc)
    simp only [firstPeakLoop, Nat.not_lt_zero, if_false, gt_iff_lt]
    exact ih (x + 1) fp fps mbc

theorem secondPeakLoop_replicate_zero :
    ∀ k x sp sps, secondPeakLoop (List.replicate k 0) x 0 (sp, sps) = .ok (sp, sps) := by
  intro k
  induction k with
  | zero => intro x sp sps; rfl
  | succ k ih =>
    intro x sp sps
    show secondPeakLoop (0 :: List.replicate k 0) x 0 (sp, sps) = .ok (sp, sps)
    have hsub : usizeSub x 0 = .ok x := by
      unfold usizeSub
      rw [if_neg (by omega), Nat.sub_zero]
    have hm : u32Mul 0 (x % 2 ^ 32) = .ok 0 := by
      unfold u32Mul
      rw [if_pos (by simp [Nat.pos_pow_of_pos])]
      simp
    simp only [secondPeakLoop, hsub, hm]
    rw [if_neg (by omega)]
    exact ih (x + 1) sp sps

theorem firstPeakLoop_cons (b : Nat) (rest : List Nat) (x fp fps mbc : Nat) :
    firstPeakLoop (b :: rest) x (fp, fps, mbc) =
      firstPeakLoop rest (x + 1)
        ((if b > fps then x else fp), (if b > fps then b else fps),
          (if b > mbc then b else mbc)) := rfl

theorem secondPeakLoop_cons (b : Nat) (rest : List Nat) (x firstPeak sp sps : Nat) :
    secondPeakLoop (b :: rest) x firstPeak (sp, sps) =
      (match usizeSub x firstPeak with
      | .error e => .error e
      | .ok d =>
        match u32Mul b (d % 2 ^ 32) with
        | .error e => .error e
        | .ok m1 =>
          match u32Mul m1 (d % 2 ^ 32) with
          | .error e => .error e
          | .ok score =>
            secondPeakLoop rest (x + 1) firstPeak
              (if score > sps then (x, score) else (sp, sps))) := rfl

theorem estimateBlackPoint_uniform (N : Nat) :
    estimateBlackPoint (N :: List.replicate 31 0) = .error .notFound := by
  have hfp : firstPeakLoop (N :: List.replicate 31 0) 0 (0, 0, 0) = (0, N, N) := by
    rw [firstPeakLoop_cons]
    rcases Nat.eq_zero_or_pos N with h0 | hpos
    · subst h0
      simp only [gt_iff_lt, Nat.lt_irrefl, if_false]
      exact firstPeakLoop_replicate_zero 31 1 0 0 0
    · simp only [gt_iff_lt, hpos, if_true]
      exact firstPeakLoop_replicate_zero 31 1 0 N N
  have hsub : usizeSub 0 0 = .ok 0 := by
    unfold usizeSub
    rw [if_neg (by omega)]
  have hm1 : u32Mul N (0 % 2 ^ 32) = .ok 0 := by
    unfold u32Mul
    simp
  have hm2 : u32Mul 0 (0 % 2 ^ 32) = .ok 0 := by
    unfold u32Mul
    simp
  have hsp : secondPeakLoop (N :: List.replicate 31 0) 0 0 (0, 0) = .ok (0, 0) := by
    rw [secondPeakLoop_cons]
    simp only [hsub, hm1, hm2, gt_iff_lt, Nat.lt_irrefl, if_false]
    exact secondPeakLoop_replicate_zero 31 1 0 0
  unfold estimateBlackPoint
  rw [hfp]
  simp only [hsp]
  rw [if_pos (by simp)]

/-- C5 (amended): a uniform-luminance image whose common value is below 8
(histogram bucket 0) makes `getBlackMatrix` fail with NotFound: both
peaks collapse onto bucket 0.  For a uniform value of 8 or more the
second-peak scan computes `x - firstPeak` with `x < firstPeak`, a `usize`
underflow (panic), so NotFound is not reached -- see the
counterexample. -/
theorem c5_uniform_notFound (w h v : Nat) (hw : 1 ≤ w) (hh : 1 ≤ h) (hv : v < 8) :
    getBlackMatrix (uniformSource w h v) = .error .notFound := by
  unfold getBlackMatrix
  have hbm : bitMatrixNew (uniformSource w h v).width (uniformSource w h v).height =
      .ok { width := w, height := h, setBits := [] } := by
    show bitMatrixNew w h = .ok { width := w, height := h, setBits := [] }
    unfold bitMatrixNew
    rw [if_neg (by omega)]
  simp only [hbm, histogram4_uniform w h v hh hv, estimateBlackPoint_uniform]

/-- Witness for `c5_uniform_notFound`: an all-black 5-by-5 image. -/
theorem c5_uniform_notFound_witness :
    getBlackMatrix (uniformSource 5 5 0) = .error .notFound :=
  c5_uniform_notFound 5 5 0 (by decide) (by decide) (by decide)

/-- C5 counterexample: an all-white (luminance 255) 5-by-5 image does not
produce NotFound -- the second-peak scan underflows `usize` and
panics. -/
theorem c5_uniform_bright_counterexample :
    getBlackMatrix (uniformSource 5 5 255) = .error .panicked ∧
    getBlackMatrix (uniformSource 5 5 255) ≠ .error .notFound := ⟨by decide, by decide⟩

/-! ## GridSampler::checkAndNudgePoints (src/src/common/mod.rs lines 2206-2269)

The point list holds `f32` coordinates; the claims only concern exact
small integral values (`-1`, `0`, `width`, ...), on which the `as i32`
casts and the constant writes (`0.0`, `width as f32 - 1.0`) are exact, so
coordinates are modelled as `Int`. -/

/-- The forward sweep `while offset < max_offset && nudged` of
`checkAndNudgePoints` (mod.rs lines 2210-2238); `fuel` dominates the
iteration count (the offset grows by 2 below `max_offset`, which is less
than the list length), so the fuel-exhaustion branch is unreachable and
conservatively panics. -/
def nudgeFwdLoop (width height : Nat) (maxOffset : Nat) :
    Nat → Nat → Bool → List Int → Except RtError (List Int)
  | 0, _, _, _ => .error .panicked
  | fuel + 1, offset, nudged, points =>
    if offset < maxOffset && nudged then
      match points.get? offset, points.get? (offset + 1) with
      | some x, some y =>
        if x < -1 || x > (width : Int) || y < -1 || y > (height : Int) then
          .error .notFound
        else
          let (points1, nudgedX) :=
            if x = -1 then (points.set offset 0, true)
            else if x = (width : Int) then (points.set offset ((width : Int) - 1), true)
            else (points, false)
          let (points2, nudged2) :=
            if y = -1 then (points1.set (offset + 1) 0, true)
            else if y = (height : Int) then (points1.set (offset + 1) ((height : Int) - 1), true)
            else (points1, nudgedX)
          nudgeFwdLoop width height maxOffset fuel (offset + 2) nudged2 points2
      | _, _ => .error .panicked
    else .ok points

/-- The backward sweep of `checkAndNudgePoints` (mod.rs lines 2240-2267).
The source writes `while offset >= 0 && nudged { ... offset += 2 }` on a
`usize` offset: the `>= 0` guard is a tautology and the offset is
incremented instead of decremented, so the sweep walks forward off the
end of the list and the indexing panics unless a point stops the sweep
first.  `fuel` again dominates the iteration count before the
out-of-bounds panic. -/
def nudgeRevLoop (width height : Nat) :
    Nat → Nat → Bool → List Int → Except RtError (List Int)
  | 0, _, _, _ => .error .panicked
  | fuel + 1, offset, nudged, points =>
    if nudged then
      match points.get? offset, points.get? (offset + 1) with
      | some x, some y =>
        if x < -1 || x > (width : Int) || y < -1 || y > (height : Int) then
          .error .notFound
        else
          let (points1, nudgedX) :=
            if x = -1 then (points.set offset 0, true)
            else if x = (width : Int) then (points.set offset ((width : Int) - 1), true)
            else (points, false)
          let (points2, nudged2) :=
            if y = -1 then (points1.set (offset + 1) 0, true)
            else if y = (height : Int) then (points1.set (offset + 1) ((height : Int) - 1), true)
            else (points1, nudgedX)
          nudgeRevLoop width height fuel (offset + 2) nudged2 points2
      | _, _ => .error .panicked
    else .ok points

/-- `GridSampler::checkAndNudgePoints` (mod.rs lines 2206-2269): the
forward sweep from offset 0, then the (broken) backward sweep starting at
`points.len() - 2`; `points.len() - 1` and `points.len() - 2` underflow
`usize` on lists shorter than 2. -/
def checkAndNudgePoints (width height : Nat) (points : List Int) :
    Except RtError (List Int) :=
  match usizeSub points.length 1 with
  | .error e => .error e
  | .ok maxOffset =>
    match nudgeFwdLoop width height maxOffset (points.length + 2) 0 true points with
    | .error e => .error e
    | .ok points1 =>
      match usizeSub points.length 2 with
      | .error e => .error e
      | .ok startRev =>
        nudgeRevLoop width height (points1.length + 2) startRev true points1

example : checkAndNudgePoints 10 10 [-1, 5, 5, 5] = .ok [0, 5, 5, 5] := by decide

example : checkAndNudgePoints 10 10 [-2, 5, 5, 5] = .error .notFound := by decide

example : checkAndNudgePoints 10 10 [5, 5, 10, 5] = .error .panicked := by decide

example : checkAndNudgePoints 10 10 [5, 5, -1, 5] = .error .panicked := by decide

/-- C6: the claimed two-sided nudging sweep is broken on the code: a
point list whose last point needs the nudge makes `checkAndNudgePoints`
walk forward past the end of the list (the backward sweep increments its
`usize` offset), an out-of-bounds panic instead of the claimed clamp; the
forward clamping of `-1` to `0` and the NotFound rejection of
coordinates below `-1` do work, as the first two conjuncts show. -/
theorem c6_nudge_reverse_sweep_bug :
    checkAndNudgePoints 10 10 [-1, 5, 5, 5] = .ok [0, 5, 5, 5] ∧
    checkAndNudgePoints 10 10 [-2, 5, 5, 5] = .error .notFound ∧
    checkAndNudgePoints 10 10 [5, 5, -1, 5] = .error .panicked ∧
    checkAndNudgePoints 10 10 [5, 5, -1, 5] ≠ .ok [5, 5, 0, 5] ∧
    checkAndNudgePoints 10 10 [5, 5, 10, 5] = .error .panicked ∧
    checkAndNudgePoints 10 10 [5, 5, 10, 5] ≠ .ok [5, 5, 9, 5] := by
  exact ⟨by decide, by decide, by decide, by decide, by decide, by decide⟩

/-! ## ECIStringBuilder (src/src/common/eci_string_builder.rs)

The file imports the `Eci` enum from `super`; that enum is not among the
provided sources. -/

/-- Modelled from the spec: the `Eci` enum, the closed enumeration of
ECI-designated encodings of sec. 4.H plus the pass-through `Binary` and
`Unknown` interpretations of sec. 4.K.  `append_eci` only compares values
for equality, so only the constructors and decidable equality matter
here. -/
inductive Eci where
  | Cp437
  | ISO8859_1
  | ISO8859_2
  | ISO8859_3
  | ISO8859_4
  | ISO8859_5
  | ISO8859_6
  | ISO8859_7
  | ISO8859_8
  | ISO8859_9
  | ISO8859_10
  | ISO8859_11
  | ISO8859_13
  | ISO8859_14
  | ISO8859_15
  | ISO8859_16
  | SJIS
  | Cp1250
  | Cp1251
  | Cp1252
  | Cp1256
  | UTF16BE
  | UTF8
  | ASCII
  | Big5
  | GB2312
  | EUC_KR
  | Binary
  | Unknown
deriving Repr, DecidableEq

/-- `struct ECIStringBuilder` (eci_string_builder.rs lines 33-39):
`is_eci`, the memoized result, the byte buffer, and the
`(eci, start, end)` segment list. -/
structure ECIStringBuilder where
  is_eci : Bool
  eci_result : Option String
  bytes : List Nat
  eci_positions : List (Eci × Nat × Nat)
deriving Repr, DecidableEq

/-- `ECIStringBuilder::with_capacity` / `Default` (lines 42-49): empty
buffer, no segments, `is_eci = false`. -/
def ECIStringBuilder.new0 : ECIStringBuilder :=
  { is_eci := false, eci_result := none, bytes := [], eci_positions := [] }

/-- `if let Some(last) = self.eci_positions.last_mut() { last.2 = self.bytes.len() }`. -/
def setLastEnd : List (Eci × Nat × Nat) → Nat → List (Eci × Nat × Nat)
  | [], _ => []
  | [(e, s, _)], n => [(e, s, n)]
  | p :: q :: rest, n => p :: setLastEnd (q :: rest) n

/-- `ECIStringBuilder::append_eci` (lines 108-121). -/
def ECIStringBuilder.append_eci (b : ECIStringBuilder) (eci : Eci) : ECIStringBuilder :=
  let b1 : ECIStringBuilder := { b with eci_result := none }
  let b2 : ECIStringBuilder :=
    if !b1.is_eci && eci ≠ Eci.ISO8859_1 then { b1 with is_eci := true } else b1
  if b2.is_eci then
    { b2 with
      eci_positions := setLastEnd b2.eci_positions b2.bytes.length ++
        [(eci, b2.bytes.length, 0)] }
  else b2

/-- `ECIStringBuilder::append_char` (lines 60-63): pushes the character's
lowest byte. -/
def ECIStringBuilder.append_char (b : ECIStringBuilder) (c : Nat) : ECIStringBuilder :=
  { b with eci_result := none, bytes := b.bytes ++ [c % 256] }

/-- `ECIStringBuilder::append_byte` (lines 70-73). -/
def ECIStringBuilder.append_byte (b : ECIStringBuilder) (v : Nat) : ECIStringBuilder :=
  { b with eci_result := none, bytes := b.bytes ++ [v % 256] }

/-- `ECIStringBuilder::append_bytes` (lines 75-78). -/
def ECIStringBuilder.append_bytes (b : ECIStringBuilder) (vs : List Nat) : ECIStringBuilder :=
  { b with eci_result := none, bytes := b.bytes ++ vs.map (· % 256) }

/-- `ECIStringBuilder::append_string` (lines 85-91): a non-ASCII string
first appends the UTF-8 ECI, then the UTF-8 bytes are appended. -/
def ECIStringBuilder.append_string (b : ECIStringBuilder) (s : List Nat) : ECIStringBuilder :=
  let b1 := if !s.all (fun c => c < 128) then b.append_eci Eci.UTF8 else b
  { b1 with eci_result := none, bytes := b1.bytes ++ s.flatMap utf8Bytes }

/-- The builder operations a client can perform before the
`append_eci(ISO8859_1)` call of the claim. -/
inductive BuilderOp where
  | opChar (c : Nat)
  | opByte (v : Nat)
  | opBytes (vs : List Nat)
  | opString (s : List Nat)
  | opEci (e : Eci)
deriving Repr, DecidableEq

def runOp (b : ECIStringBuilder) : BuilderOp → ECIStringBuilder
  | .opChar c => b.append_char c
  | .opByte v => b.append_byte v
  | .opBytes vs => b.append_bytes vs
  | .opString s => b.append_string s
  | .opEci e => b.append_eci e

def runOps (b : ECIStringBuilder) (ops : List BuilderOp) : ECIStringBuilder :=
  ops.foldl runOp b

/-- An operation that never appends an ECI other than ISO-8859-1: any
byte/char append, an ASCII string append (a non-ASCII one implicitly
appends the UTF-8 ECI), or `append_eci(ISO8859_1)` itself. -/
def opNoForeignEci : BuilderOp → Bool
  | .opString s => s.all (fun c => c < 128)
  | .opEci e => e = Eci.ISO8859_1
  | _ => true

theorem append_eci_iso_of_not_is_eci (b : ECIStringBuilder) (h : b.is_eci = false) :
    b.append_eci Eci.ISO8859_1 =
      { b with eci_result := none } := by
  unfold ECIStringBuilder.append_eci
  simp [h]

theorem runOp_is_eci (b : ECIStringBuilder) (op : BuilderOp) (h : b.is_eci = false)
    (hop : opNoForeignEci op = true) : (runOp b op).is_eci = false := by
  cases op with
  | opChar c => exact h
  | opByte v => exact h
  | opBytes vs => exact h
  | opString s =>
    unfold runOp ECIStringBuilder.append_string
    simp only [opNoForeignEci] at hop
    simp [hop, h]
  | opEci e =>
    simp only [opNoForeignEci, decide_eq_true_eq] at hop
    subst hop
    show (b.append_eci Eci.ISO8859_1).is_eci = false
    rw [append_eci_iso_of_not_is_eci b h]
    exact h

theorem runOps_is_eci (ops : List BuilderOp) :
    ∀ b : ECIStringBuilder, b.is_eci = false →
    (∀ op ∈ ops, opNoForeignEci op = true) → (runOps b ops).is_eci = false := by
  induction ops with
  | nil => intro b h _; exact h
  | cons op rest ih =>
    intro b h hall
    show (runOps (runOp b op) rest).is_eci = false
    exact ih (runOp b op) (runOp_is_eci b op h (hall op (by simp)))
      (fun o ho => hall o (by simp [ho]))

/-- C10: when no ECI other than ISO-8859-1 has ever been appended (so the
builder's `is_eci` flag is still false), `append_eci(ISO8859_1)` changes
neither the byte buffer nor the ECI segment list nor the flag; it only
clears the memoized result string. -/
theorem c10_append_iso_noop (ops : List BuilderOp)
    (hops : ∀ op ∈ ops, opNoForeignEci op = true) :
    ((runOps ECIStringBuilder.new0 ops).append_eci Eci.ISO8859_1).bytes =
      (runOps ECIStringBuilder.new0 ops).bytes ∧
    ((runOps ECIStringBuilder.new0 ops).append_eci Eci.ISO8859_1).eci_positions =
      (runOps ECIStringBuilder.new0 ops).eci_positions ∧
    ((runOps ECIStringBuilder.new0 ops).append_eci Eci.ISO8859_1).is_eci = false := by
  have hfl : (runOps ECIStringBuilder.new0 ops).is_eci = false :=
    runOps_is_eci ops ECIStringBuilder.new0 rfl hops
  rw [append_eci_iso_of_not_is_eci _ hfl]
  exact ⟨rfl, rfl, hfl⟩

/-- Witness for `c10_append_iso_noop`: a byte, an ASCII string and an
ISO-8859-1 ECI appended, then the no-op `append_eci(ISO8859_1)`. -/
theorem c10_append_iso_noop_witness :
    ((runOps ECIStringBuilder.new0
        [.opByte 65, .opString [104, 105], .opEci Eci.ISO8859_1]).append_eci
          Eci.ISO8859_1).bytes =
      (runOps ECIStringBuilder.new0
        [.opByte 65, .opString [104, 105], .opEci Eci.ISO8859_1]).bytes ∧
    ((runOps ECIStringBuilder.new0
        [.opByte 65, .opString [104, 105], .opEci Eci.ISO8859_1]).append_eci
          Eci.ISO8859_1).eci_positions =
      (runOps ECIStringBuilder.new0
        [.opByte 65, .opString [104, 105], .opEci Eci.ISO8859_1]).eci_positions ∧
    ((runOps ECIStringBuilder.new0
        [.opByte 65, .opString [104, 105], .opEci Eci.ISO8859_1]).append_eci
          Eci.ISO8859_1).is_eci = false :=
  c10_append_iso_noop [.opByte 65, .opString [104, 105], .opEci Eci.ISO8859_1] (by decide)
